import Mathlib

/-!
# jgocache: the encryption-and-precache cache decorator

A shallow embedding of `autocert/cache/cache.go`.

Modelling conventions.

* A Go `[]byte` is a `List Nat` (one entry per byte); the nil slice and the
  empty slice are both `[]`.
* A Go call that returns `(value, error)` or `error` is a `Result`:
  `ok v` for `(v, nil)`, `err e` for `(nil, e)`, and `panic` for a run-time
  panic (slice bounds out of range, nil interface dereference).
* `autocert.Cache` (the backend interface) is a record of three functions over
  an explicit backend state `σ`; every call returns the next state.  The
  `context.Context` argument is passed through untouched by the source and is
  left out.
* `sync.Map` is a function `String → Option Bytes`.
* The AES block function (`crypto/aes`) is a parameter `E key block`; the CFB
  stream of `crypto/cipher` is modelled byte by byte over it.
* `io.ReadFull(rand.Reader, iv)` is an input `rnd` of `Cache.Put`: either an
  error or the bytes read into `iv`.
* Every operation returns, besides its result, the decorator and backend state
  after the call and the list of precache, backend and cipher calls it made, in
  program order.
* `autocert/cache/sql/sql.go` is embedded under `sql.`; `encoding/base64`
  (`StdEncoding`) is modelled under `base64.`, with `x << k` written `x <<< k`,
  `x >> k` written `x >>> k`, `x & 0x3F` written `x % 64`, `byte(x)` written
  `x % 256` and the `|` of disjoint bit fields written `+`.  A byte is a number
  below 256.
-/

namespace cache

/-- Byte sequences: Go `[]byte`. -/
abbrev Bytes := List Nat

/-- Errors that flow through the decorator. -/
inductive Error where
  /-- Sentinel `autocert.ErrCacheMiss`. -/
  | ErrCacheMiss
  /-- Error `aes.KeySizeError(n)` returned by `aes.NewCipher`. -/
  | KeySizeError (n : Nat)
  /-- Error built by `fmt.Errorf(msg)`. -/
  | Errorf (msg : String)
  /-- Any other error produced outside the package (backend, random reader). -/
  | external (msg : String)
  /-- Error built by `errors.New(msg)`. -/
  | New (msg : String)
  /-- Error `base64.CorruptInputError(offset)`. -/
  | CorruptInputError (offset : Nat)
  deriving DecidableEq, Repr

/-- Outcome of a Go call: `(v, nil)`, `(nil, e)`, or a run-time panic. -/
inductive Result (α : Type) where
  | ok (val : α)
  | err (e : Error)
  | panic (msg : String)
  deriving DecidableEq, Repr

/-- Constant `aes.BlockSize`. -/
def BlockSize : Nat := 16

/-- Go slice expression `s[lo:hi]`; `none` is the bounds panic. -/
def slice (s : Bytes) (lo hi : Nat) : Option Bytes :=
  if lo ≤ hi ∧ hi ≤ s.length then some ((s.take hi).drop lo) else none

/-- Function `aes.NewCipher`: accepts keys of 16, 24 or 32 bytes and returns the block
encryption function for the key, otherwise `KeySizeError`. -/
def aes.NewCipher (E : Bytes → Bytes → Bytes) (key : Bytes) : Except Error (Bytes → Bytes) :=
  if key.length = 16 ∨ key.length = 24 ∨ key.length = 32 then .ok (E key)
  else .error (.KeySizeError key.length)

/-- The `cfb` stream of `crypto/cipher`: block function, feedback register `next`,
current key-stream block `out`, bytes of it already used, and direction. -/
structure cfb where
  b : Bytes → Bytes
  next : Bytes
  out : Bytes
  outUsed : Nat
  decrypt : Bool

/-- Function `newCFB` of `crypto/cipher`; `none` is its panic
"IV length must equal block size". -/
def newCFB (block : Bytes → Bytes) (iv : Bytes) (decrypt : Bool) : Option cfb :=
  if iv.length ≠ BlockSize then none
  else some { b := block, next := iv, out := List.replicate BlockSize 0,
              outUsed := BlockSize, decrypt := decrypt }

/-- Function `cipher.NewCFBEncrypter`. -/
def NewCFBEncrypter (block : Bytes → Bytes) (iv : Bytes) : Option cfb :=
  newCFB block iv false

/-- Function `cipher.NewCFBDecrypter`. -/
def NewCFBDecrypter (block : Bytes → Bytes) (iv : Bytes) : Option cfb :=
  newCFB block iv true

/-- Method `(*cfb).XORKeyStream(dst, src)`, one source byte at a time: refill the
key-stream block from the feedback register when it is used up, xor, and feed the
ciphertext byte (the source byte when decrypting, the produced byte when
encrypting) back into the register.  Returns the bytes written to `dst`. -/
def cfb.XORKeyStream : cfb → Bytes → Bytes
  | _, [] => []
  | x, s :: src =>
    let x1 : cfb :=
      if x.outUsed = BlockSize then { x with out := x.b x.next, outUsed := 0 } else x
    let d := s ^^^ x1.out.getD x1.outUsed 0
    let x2 : cfb :=
      { x1 with next := x1.next.set x1.outUsed (if x1.decrypt then s else d),
                outUsed := x1.outUsed + 1 }
    d :: cfb.XORKeyStream x2 src

/-- The storage-backend contract `autocert.Cache`, over an explicit backend state. -/
structure Backend (σ : Type) where
  Get : σ → String → Except Error Bytes × σ
  Put : σ → String → Bytes → Option Error × σ
  Delete : σ → String → Option Error × σ

/-- The precache: a `sync.Map` from keys to byte sequences. -/
abbrev Precache := String → Option Bytes

/-- Method `sync.Map.Store`. -/
def Precache.Store (m : Precache) (key : String) (data : Bytes) : Precache :=
  fun k => if k = key then some data else m k

/-- Method `sync.Map.Delete`. -/
def Precache.Delete (m : Precache) (key : String) : Precache :=
  fun k => if k = key then none else m k

/-- The decorator `Cache`; a nil `backend` or `encryptionKey` is `none`. -/
structure Cache (σ : Type) where
  backend : Option (Backend σ)
  encryptionKey : Option Bytes
  usePrecaching : Bool
  precache : Precache

/-- Calls an operation makes, recorded in program order. -/
inductive Event where
  | precacheLoad (key : String)
  | precacheStore (key : String) (data : Bytes)
  | precacheDelete (key : String)
  | backendGet (key : String)
  | backendPut (key : String) (payload : Bytes)
  | backendDelete (key : String)
  | encrypt (plaintext : Bytes)
  | decrypt (ciphertext : Bytes)
  deriving DecidableEq, Repr

/-- What a decorator call leaves behind: its result, the decorator and the backend
state after the call, and the calls it made. -/
structure Outcome (σ α : Type) where
  ret : Result α
  cache : Cache σ
  st : σ
  trace : List Event

/-- Panic raised by a method call on a nil interface value. -/
def nilDeref : String := "invalid memory address or nil pointer dereference"

/-- Method `(*Cache).decrypt`. -/
def Cache.decrypt {σ : Type} (E : Bytes → Bytes → Bytes) (c : Cache σ) (ciphertext : Bytes) :
    Result Bytes :=
  match aes.NewCipher E (c.encryptionKey.getD []) with
  | .error e => .err e
  | .ok block =>
    if ciphertext.length < BlockSize then
      .err (.Errorf "Ciphertext is too short. Probably corrupted data")
    else
      match slice ciphertext 0 BlockSize, slice ciphertext BlockSize ciphertext.length with
      | some iv, some ct =>
        match NewCFBDecrypter block iv with
        | none => .panic "cipher.NewCFBDecrypter: IV length must equal block size"
        | some stream => .ok (stream.XORKeyStream ct)
      | _, _ => .panic "slice bounds out of range"

/-- Method `(*Cache).encrypt`; `rnd` is the outcome of `io.ReadFull(rand.Reader, iv)`. -/
def Cache.encrypt {σ : Type} (E : Bytes → Bytes → Bytes) (c : Cache σ)
    (rnd : Except Error Bytes) (plaintext : Bytes) : Result Bytes :=
  match aes.NewCipher E (c.encryptionKey.getD []) with
  | .error e => .err e
  | .ok block =>
    match rnd with
    | .error e => .err e
    | .ok iv =>
      match NewCFBEncrypter block iv with
      | none => .panic "cipher.NewCFBEncrypter: IV length must equal block size"
      | some stream => .ok (iv ++ stream.XORKeyStream plaintext)

/-- Lines 69 to 90 of `(*Cache).Get`: the backend call and what follows it; `tr` is the
 trace so far. -/
def Cache.getBackend {σ : Type} (E : Bytes → Bytes → Bytes) (c : Cache σ) (s : σ)
    (key : String) (tr : List Event) : Outcome σ Bytes :=
  match c.backend with
  | none => ⟨.panic nilDeref, c, s, tr⟩
  | some b =>
    match b.Get s key with
    | (.error e, s1) => ⟨.err e, c, s1, tr ++ [.backendGet key]⟩
    | (.ok data, s1) =>
      match c.encryptionKey with
      | none =>
        ⟨.ok data, { c with precache := c.precache.Store key data }, s1,
          tr ++ [.backendGet key, .precacheStore key data]⟩
      | some _ =>
        match c.decrypt E data with
        | .err e => ⟨.err e, c, s1, tr ++ [.backendGet key, .decrypt data]⟩
        | .panic m => ⟨.panic m, c, s1, tr ++ [.backendGet key, .decrypt data]⟩
        | .ok plain =>
          if c.usePrecaching then
            ⟨.ok plain, { c with precache := c.precache.Store key plain }, s1,
              tr ++ [.backendGet key, .decrypt data, .precacheStore key plain]⟩
          else
            ⟨.ok plain, c, s1, tr ++ [.backendGet key, .decrypt data]⟩

/-- Method `(*Cache).Get`. -/
def Cache.Get {σ : Type} (E : Bytes → Bytes → Bytes) (c : Cache σ) (s : σ) (key : String) :
    Outcome σ Bytes :=
  if c.usePrecaching then
    match c.precache key with
    | some data => ⟨.ok data, c, s, [.precacheLoad key]⟩
    | none => c.getBackend E s key [.precacheLoad key]
  else
    c.getBackend E s key []

/-- Lines 111 to 120 of `(*Cache).Put`: the backend call and what follows it. -/
def Cache.putBackend {σ : Type} (c : Cache σ) (s : σ) (key : String) (data resultData : Bytes)
    (tr : List Event) : Outcome σ Unit :=
  match c.backend with
  | none => ⟨.panic nilDeref, c, s, tr⟩
  | some b =>
    match b.Put s key resultData with
    | (some e, s1) => ⟨.err e, c, s1, tr ++ [.backendPut key resultData]⟩
    | (none, s1) =>
      if c.usePrecaching then
        ⟨.ok (), { c with precache := c.precache.Store key data }, s1,
          tr ++ [.backendPut key resultData, .precacheStore key data]⟩
      else
        ⟨.ok (), c, s1, tr ++ [.backendPut key resultData]⟩

/-- Method `(*Cache).Put`; `rnd` is the outcome of the random read in `encrypt`. -/
def Cache.Put {σ : Type} (E : Bytes → Bytes → Bytes) (c : Cache σ) (s : σ)
    (rnd : Except Error Bytes) (key : String) (data : Bytes) : Outcome σ Unit :=
  match c.encryptionKey with
  | some _ =>
    match c.encrypt E rnd data with
    | .err e => ⟨.err e, c, s, [.encrypt data]⟩
    | .panic m => ⟨.panic m, c, s, [.encrypt data]⟩
    | .ok resultData => c.putBackend s key data resultData [.encrypt data]
  | none => c.putBackend s key data data []

/-- A Go `error` return value as a result: nil is success. -/
def Result.ofError : Option Error → Result Unit
  | none => .ok ()
  | some e => .err e

/-- Method `(*Cache).Delete`. -/
def Cache.Delete {σ : Type} (c : Cache σ) (s : σ) (key : String) : Outcome σ Unit :=
  let c1 : Cache σ :=
    if c.usePrecaching then { c with precache := c.precache.Delete key } else c
  let tr : List Event := if c.usePrecaching then [.precacheDelete key] else []
  match c1.backend with
  | none => ⟨.panic nilDeref, c1, s, tr⟩
  | some b =>
    ⟨Result.ofError (b.Delete s key).1, c1, (b.Delete s key).2, tr ++ [.backendDelete key]⟩

/-- Key lengths `aes.NewCipher` accepts (AES-128, AES-192, AES-256). -/
def validKey (key : Bytes) : Prop :=
  key.length = 16 ∨ key.length = 24 ∨ key.length = 32

instance (key : Bytes) : Decidable (validKey key) := by
  unfold validKey; infer_instance

/-- The CFB key stream applied to `src` by a fresh encrypting stream for `key` and `iv`. -/
def cfbEncrypt (E : Bytes → Bytes → Bytes) (key iv src : Bytes) : Bytes :=
  cfb.XORKeyStream ⟨E key, iv, List.replicate BlockSize 0, BlockSize, false⟩ src

/-- The CFB key stream applied to `src` by a fresh decrypting stream for `key` and `iv`. -/
def cfbDecrypt (E : Bytes → Bytes → Bytes) (key iv src : Bytes) : Bytes :=
  cfb.XORKeyStream ⟨E key, iv, List.replicate BlockSize 0, BlockSize, true⟩ src

/-- A faithful store: a Get after a successful Put of the same key returns exactly the
bytes that were put. -/
def Backend.Faithful {σ : Type} (b : Backend σ) : Prop :=
  ∀ s k p, (b.Put s k p).1 = none → (b.Get (b.Put s k p).2 k).1 = .ok p

/-- A call on the decorator; a Put carries the outcome of its random read. -/
inductive Op where
  | Get (key : String)
  | Put (key : String) (data : Bytes) (rnd : Except Error Bytes)
  | Delete (key : String)

/-- Whether the call is a Put or a Delete of key `k`. -/
def Op.writes (k : String) : Op → Bool
  | .Get _ => false
  | .Put key _ _ => decide (key = k)
  | .Delete key => decide (key = k)

/-- What a call returned: the data result of a Get, or the error result of a Put or
Delete. -/
inductive Ret where
  | data (r : Result Bytes)
  | status (r : Result Unit)

/-- A completed call: the call, what it returned and the calls it made. -/
structure Done where
  op : Op
  ret : Ret
  trace : List Event

/-- One call on the decorator. -/
def Cache.step {σ : Type} (E : Bytes → Bytes → Bytes) (c : Cache σ) (s : σ) :
    Op → Cache σ × σ × Done
  | .Get key =>
    ((c.Get E s key).cache, (c.Get E s key).st,
      ⟨.Get key, .data (c.Get E s key).ret, (c.Get E s key).trace⟩)
  | .Put key data rnd =>
    ((c.Put E s rnd key data).cache, (c.Put E s rnd key data).st,
      ⟨.Put key data rnd, .status (c.Put E s rnd key data).ret, (c.Put E s rnd key data).trace⟩)
  | .Delete key =>
    ((c.Delete s key).cache, (c.Delete s key).st,
      ⟨.Delete key, .status (c.Delete s key).ret, (c.Delete s key).trace⟩)

/-- A sequence of calls on the decorator, one after the other, with the completed calls
in order. -/
def Cache.run {σ : Type} (E : Bytes → Bytes → Bytes) : Cache σ → σ → List Op →
    Cache σ × σ × List Done
  | c, s, [] => (c, s, [])
  | c, s, op :: ops =>
    ((Cache.run E (c.step E s op).1 (c.step E s op).2.1 ops).1,
      (Cache.run E (c.step E s op).1 (c.step E s op).2.1 ops).2.1,
      (c.step E s op).2.2 :: (Cache.run E (c.step E s op).1 (c.step E s op).2.1 ops).2.2)

/-- Whether the event is a call of `decrypt`. -/
def Event.isDecrypt : Event → Bool
  | .decrypt _ => true
  | _ => false

/-- The plaintext of key `k` a completed call has seen: the data argument of a
successful `Put(k, data)`, or the value a successful `Get(k)` decrypted and returned. -/
def Done.plaintext (k : String) : Done → Option Bytes
  | ⟨.Put key data _, .status (.ok _), _⟩ => if key = k then some data else none
  | ⟨.Get key, .data (.ok v), tr⟩ =>
    if key = k ∧ tr.any Event.isDecrypt = true then some v else none
  | _ => none

/-- Whether `p` is a payload the call handed to the backend's Put or passed, as
received from the backend's Get, to `decrypt`. -/
def Done.payload (dn : Done) (p : Bytes) : Prop :=
  (∃ k, Event.backendPut k p ∈ dn.trace) ∨ Event.decrypt p ∈ dn.trace

/-- The writes a trace hands to the backend: key and payload of every backend Put, in
order. -/
def backendPuts : List Event → List (String × Bytes)
  | [] => []
  | .backendPut k p :: tr => (k, p) :: backendPuts tr
  | _ :: tr => backendPuts tr

/-- A fixed block function for worked examples: the key's first block xored with the
input block. -/
def exampleE (key block : Bytes) : Bytes :=
  List.zipWith (fun a b => a ^^^ b) (key.take BlockSize) block

/-- A 32-byte key for worked examples. -/
def exampleKey : Bytes := List.range 32

/-- A 16-byte IV for worked examples. -/
def exampleIV : Bytes := List.replicate 16 7

/-- The bytes of "test-data". -/
def testData : Bytes := [116, 101, 115, 116, 45, 100, 97, 116, 97]

/-- The sequence `Put(k, v); Delete(k); Get(k)` on one decorator: the outcome of the
final Get. -/
def Cache.putDeleteGet {σ : Type} (E : Bytes → Bytes → Bytes) (c : Cache σ) (s : σ)
    (rnd : Except Error Bytes) (k : String) (v : Bytes) : Outcome σ Bytes :=
  Cache.Get E
    (Cache.Delete (c.Put E s rnd k v).cache (c.Put E s rnd k v).st k).cache
    (Cache.Delete (c.Put E s rnd k v).cache (c.Put E s rnd k v).st k).st k

/-- The empty store and the empty precache. -/
def emptyMap : String → Option Bytes := fun _ => none

/-- A backend stub that is down after the write: Put is accepted, every Get and every
Delete fails; the state counts the calls. -/
def downBackend : Backend Nat where
  Get := fun s _ => (.error (.external "backend unavailable"), s + 1)
  Put := fun s _ _ => (none, s + 1)
  Delete := fun s _ => (some (.external "backend unavailable"), s + 1)

/-- A backend stub that rejects every write and every delete and holds one short
payload under every key. -/
def rejectBackend : Backend Unit where
  Get := fun s _ => (.ok [1, 2, 3], s)
  Put := fun s _ _ => (some (.external "write rejected"), s)
  Delete := fun s _ => (some (.external "delete rejected"), s)

/-- A precache holding "test-data" under "test-key". -/
def examplePrecache : Precache := fun k => if k = "test-key" then some testData else none

/-- A second 16-byte IV for worked examples. -/
def exampleIV2 : Bytes := List.replicate 16 8

/-- A short run for worked examples: a Put, a Get of the same key, a Delete of another. -/
def exampleOps : List Op :=
  [.Put "test-key" testData (.ok exampleIV), .Get "test-key", .Delete "other"]

/-- An in-memory backend, the stub the tests of a decorator run against: a map from
keys to payloads whose `Get` of an absent key is the cache miss. -/
def memBackend : Backend (String → Option Bytes) where
  Get := fun s key =>
    match s key with
    | some v => (.ok v, s)
    | none => (.error .ErrCacheMiss, s)
  Put := fun s key data => (none, fun k => if k = key then some data else s k)
  Delete := fun s key => (none, fun k => if k = key then none else s k)

/-! ### encoding/base64 (Go standard library) -/

/-- The alphabet `encodeStd` of `encoding/base64`: "A" to "Z", "a" to "z", "0" to "9",
"+", "/". -/
def base64.encodeStd : List Nat :=
  [65, 66, 67, 68, 69, 70, 71, 72, 73, 74, 75, 76, 77, 78, 79, 80, 81, 82, 83, 84, 85, 86, 87,
   88, 89, 90, 97, 98, 99, 100, 101, 102, 103, 104, 105, 106, 107, 108, 109, 110, 111, 112,
   113, 114, 115, 116, 117, 118, 119, 120, 121, 122, 48, 49, 50, 51, 52, 53, 54, 55, 56, 57,
   43, 47]

/-- The padding character `StdPadding`, "=". -/
def base64.StdPadding : Nat := 61

/-- Table lookup `enc.encode[i]`. -/
def base64.encode (i : Nat) : Nat := base64.encodeStd.getD i 0

/-- Table lookup `enc.decodeMap[c]`; `none` is the entry 0xff of a byte outside the
alphabet. -/
def base64.decodeMap (c : Nat) : Option Nat :=
  if base64.encodeStd.indexOf c < 64 then some (base64.encodeStd.indexOf c) else none

/-- Method `(*Encoding).Encode` of `StdEncoding`: three source bytes give four
characters; a remainder of two bytes gives three characters and one "=", a remainder of
one byte two characters and "==".  Returns the bytes written to `dst`. -/
def base64.Encode : Bytes → Bytes
  | a :: b :: c :: rest =>
    [base64.encode (((a <<< 16 + b <<< 8 + c) >>> 18) % 64),
     base64.encode (((a <<< 16 + b <<< 8 + c) >>> 12) % 64),
     base64.encode (((a <<< 16 + b <<< 8 + c) >>> 6) % 64),
     base64.encode ((a <<< 16 + b <<< 8 + c) % 64)] ++ base64.Encode rest
  | [a, b] =>
    [base64.encode (((a <<< 16 + b <<< 8) >>> 18) % 64),
     base64.encode (((a <<< 16 + b <<< 8) >>> 12) % 64),
     base64.encode (((a <<< 16 + b <<< 8) >>> 6) % 64),
     base64.StdPadding]
  | [a] =>
    [base64.encode (((a <<< 16) >>> 18) % 64),
     base64.encode (((a <<< 16) >>> 12) % 64),
     base64.StdPadding, base64.StdPadding]
  | [] => []

/-- Whether the byte is "\n" or "\r", which the decoder skips. -/
def base64.isNewline (c : Nat) : Bool := c == 10 || c == 13

/-- The end of `decodeQuantum`: the `dlen - 1` bytes of a quantum whose 6-bit values are
`dbuf` (missing values are zero). -/
def base64.quantum (dbuf : List Nat) (dlen : Nat) : Bytes :=
  [((dbuf.getD 0 0 <<< 18 + dbuf.getD 1 0 <<< 12 + dbuf.getD 2 0 <<< 6 + dbuf.getD 3 0)
      >>> 16) % 256,
   ((dbuf.getD 0 0 <<< 18 + dbuf.getD 1 0 <<< 12 + dbuf.getD 2 0 <<< 6 + dbuf.getD 3 0)
      >>> 8) % 256,
   (dbuf.getD 0 0 <<< 18 + dbuf.getD 1 0 <<< 12 + dbuf.getD 2 0 <<< 6 + dbuf.getD 3 0)
      % 256].take (dlen - 1)

/-- In `decodeQuantum`, after the padding: skip newlines; anything left is trailing
garbage.  `si` is the input offset of `rest`. -/
def base64.decodeTrailing (j : Nat) (dbuf : List Nat) (rest : Bytes) (si : Nat) :
    Except Error Bytes :=
  if rest.dropWhile base64.isNewline = [] then .ok (base64.quantum dbuf j)
  else .error (.CorruptInputError (si + (rest.length - (rest.dropWhile base64.isNewline).length)))

/-- In `decodeQuantum`, a "=" was read at position `j` of the quantum; `rest` follows it
at input offset `si`, and `total` is `len(src)`. -/
def base64.decodePadding (total : Nat) (j : Nat) (dbuf : List Nat) (rest : Bytes) (si : Nat) :
    Except Error Bytes :=
  if j < 2 then .error (.CorruptInputError (si - 1))
  else if j = 2 then
    match rest.dropWhile base64.isNewline with
    | [] => .error (.CorruptInputError total)
    | c :: rest1 =>
      if c ≠ base64.StdPadding then
        .error (.CorruptInputError
          (si + (rest.length - (rest.dropWhile base64.isNewline).length) - 1))
      else
        base64.decodeTrailing j dbuf rest1
          (si + (rest.length - (rest.dropWhile base64.isNewline).length) + 1)
  else base64.decodeTrailing j dbuf rest si

/-- The loop of `(*Encoding).Decode` over `decodeQuantum`, one input byte at a time:
`si` is the input offset, `j` the position in the current quantum and `dbuf` its 6-bit
values so far.  A byte of the alphabet is added to the quantum, which is written out
when full; a newline is skipped; "=" ends the input through `decodePadding`; any other
byte, and an input that ends inside a quantum, is a `CorruptInputError`. -/
def base64.decodeLoop (total : Nat) : Bytes → Nat → Nat → List Nat → Except Error Bytes
  | [], si, j, _ => if j = 0 then .ok [] else .error (.CorruptInputError (si - j))
  | c :: rest, si, j, dbuf =>
    match base64.decodeMap c with
    | some out =>
      if j = 3 then
        match base64.decodeLoop total rest (si + 1) 0 [] with
        | .ok tl => .ok (base64.quantum (dbuf ++ [out]) 4 ++ tl)
        | .error e => .error e
      else base64.decodeLoop total rest (si + 1) (j + 1) (dbuf ++ [out])
    | none =>
      if base64.isNewline c then base64.decodeLoop total rest (si + 1) j dbuf
      else if c ≠ base64.StdPadding then .error (.CorruptInputError si)
      else base64.decodePadding total j dbuf rest (si + 1)

/-- Method `(*Encoding).Decode` of `StdEncoding`: the bytes written to `dst`, or the
error. -/
def base64.Decode (src : Bytes) : Except Error Bytes :=
  base64.decodeLoop src.length src 0 0 []

/-- The characters of padded standard base64: "A" to "Z", "a" to "z", "0" to "9", "+",
"/" and "=". -/
def base64.isStdChar (c : Nat) : Prop :=
  (65 ≤ c ∧ c ≤ 90) ∨ (97 ≤ c ∧ c ≤ 122) ∨ (48 ≤ c ∧ c ≤ 57) ∨ c = 43 ∨ c = 47 ∨ c = 61

instance (c : Nat) : Decidable (base64.isStdChar c) := by
  unfold base64.isStdChar; infer_instance

/-- A byte the decoder neither decodes nor skips: not of the alphabet, not "=", not a
newline. -/
def base64.isForeign (c : Nat) : Prop :=
  base64.decodeMap c = none ∧ base64.isNewline c = false ∧ c ≠ base64.StdPadding

/-! ### autocert/cache/sql/sql.go -/

/-- Calls the SQL adapter makes, recorded in program order. -/
inductive sql.Event where
  | driverGet (key : String)
  | driverPut (key : String) (data : Bytes)
  | driverDelete (key : String)
  | encode (input : Bytes)
  | decode (input : Bytes)
  deriving DecidableEq, Repr

/-- What an adapter call leaves behind: its result, the driver state after the call and
the calls it made. -/
structure sql.Outcome (σ α : Type) where
  ret : Result α
  st : σ
  trace : List sql.Event

/-- The two dialect implementations: `mysql.MySQL` and `postgresql.PostgreSQL`. -/
inductive sql.Dialect where
  | MySQL
  | PostgreSQL
  deriving DecidableEq, Repr

/-- A dialect driver value, `&mysql.MySQL{DB: db}` or `&postgresql.PostgreSQL{DB: db}`:
its dynamic type and its `autocert.Cache` methods (the dialect packages are outside the
source given, so the methods are a parameter). -/
structure sql.Driver (σ : Type) where
  dialect : sql.Dialect
  impl : Backend σ

/-- The adapter `sql.Cache`; a nil `driver` is `none`. -/
structure sql.Cache (σ : Type) where
  driver : Option (sql.Driver σ)

/-- An open `*sql.DB`, as far as `NewCache` looks at it: the string of
`reflect.TypeOf(db.Driver())`. -/
structure DB where
  driverType : String
  deriving DecidableEq, Repr

/-- Function `sql.NewCache`; `impl` gives the methods of each dialect's driver over the
connection. -/
def sql.NewCache {σ : Type} (impl : sql.Dialect → DB → Backend σ) (db : DB) :
    Result (sql.Cache σ) :=
  if "Driver: " ++ db.driverType = "Driver: *mysql.MySQLDriver" then
    .ok ⟨some ⟨.MySQL, impl .MySQL db⟩⟩
  else if "Driver: " ++ db.driverType = "Driver: *pq.Driver" then
    .ok ⟨some ⟨.PostgreSQL, impl .PostgreSQL db⟩⟩
  else .err (.New "Unsupported driver")

/-- Method `(*sql.Cache).decode`. -/
def sql.Cache.decode {σ : Type} (_m : sql.Cache σ) (input : Bytes) : Result Bytes :=
  match base64.Decode input with
  | .error e => .err e
  | .ok ct => .ok ct

/-- Method `(*sql.Cache).encode`. -/
def sql.Cache.encode {σ : Type} (_m : sql.Cache σ) (input : Bytes) : Bytes :=
  base64.Encode input

/-- Method `(*sql.Cache).Get`. -/
def sql.Cache.Get {σ : Type} (m : sql.Cache σ) (s : σ) (key : String) : sql.Outcome σ Bytes :=
  match m.driver with
  | none => ⟨.panic nilDeref, s, []⟩
  | some d =>
    match d.impl.Get s key with
    | (.error e, s1) => ⟨.err e, s1, [.driverGet key]⟩
    | (.ok data, s1) =>
      match m.decode data with
      | .err e => ⟨.err e, s1, [.driverGet key, .decode data]⟩
      | .panic msg => ⟨.panic msg, s1, [.driverGet key, .decode data]⟩
      | .ok data1 => ⟨.ok data1, s1, [.driverGet key, .decode data]⟩

/-- Method `(*sql.Cache).Put`. -/
def sql.Cache.Put {σ : Type} (m : sql.Cache σ) (s : σ) (key : String) (data : Bytes) :
    sql.Outcome σ Unit :=
  match m.driver with
  | none => ⟨.panic nilDeref, s, [.encode data]⟩
  | some d =>
    ⟨Result.ofError (d.impl.Put s key (m.encode data)).1, (d.impl.Put s key (m.encode data)).2,
      [.encode data, .driverPut key (m.encode data)]⟩

/-- Method `(*sql.Cache).Delete`. -/
def sql.Cache.Delete {σ : Type} (m : sql.Cache σ) (s : σ) (key : String) : sql.Outcome σ Unit :=
  match m.driver with
  | none => ⟨.panic nilDeref, s, []⟩
  | some d =>
    ⟨Result.ofError (d.impl.Delete s key).1, (d.impl.Delete s key).2, [.driverDelete key]⟩

/-- The bytes of "test-data" in padded standard base64: "dGVzdC1kYXRh". -/
def testDataBase64 : Bytes := [100, 71, 86, 122, 100, 67, 49, 107, 89, 88, 82, 104]

/-- An adapter over the in-memory store as its MySQL dialect driver. -/
def exampleAdapter : sql.Cache (String → Option Bytes) := ⟨some ⟨.MySQL, memBackend⟩⟩

/-! ### NewCacheFactory and the backend constructors of cache.go -/

/-- Method `Error()` of an error value: its message. -/
def Error.message : Error → String
  | .ErrCacheMiss => "acme/autocert: certificate cache miss"
  | .KeySizeError n => "crypto/aes: invalid key size " ++ toString n
  | .Errorf msg => msg
  | .external msg => msg
  | .New msg => msg
  | .CorruptInputError n => "illegal base64 data at input byte " ++ toString n

/-- Constant `CacheBackendDir`. -/
def CacheBackendDir : String := "dir"

/-- Constant `CacheBackendRedis`. -/
def CacheBackendRedis : String := "redis"

/-- Constant `CacheBackendSQL`. -/
def CacheBackendSQL : String := "sql"

/-- The configuration `map[string]string`: the value of an option, `none` when the key is
not in the map. -/
abbrev Options := String → Option String

/-- Function `strconv.ParseBool`: the value and the error. -/
def strconv.ParseBool (str : String) : Bool × Option Error :=
  if str = "1" ∨ str = "t" ∨ str = "T" ∨ str = "true" ∨ str = "TRUE" ∨ str = "True" then
    (true, none)
  else if str = "0" ∨ str = "f" ∨ str = "F" ∨ str = "false" ∨ str = "FALSE"
      ∨ str = "False" then
    (false, none)
  else (false, some (.external ("strconv.ParseBool: parsing " ++ str ++ ": invalid syntax")))

/-- Conversion `[]byte(str)`: the UTF-8 bytes of a string. -/
def stringBytes (str : String) : Bytes := str.toUTF8.data.toList.map (fun b => b.toNat)

/-- The record `redis.Options` as the factory fills it. -/
structure RedisOptions where
  Addr : String
  Password : String
  DB : Int
  deriving DecidableEq, Repr

/-- What construction calls outside the package; none of it is under the source given,
so it is a parameter: the digest `sha256` and `pbkdf2.Key` (with `sha256.New` as its
hash), `strconv.Atoi`, `os.Stat` followed by `os.IsNotExist`, `os.MkdirAll`,
`autocert.DirCache`, `sql.Open`, `(*sql.DB).Ping`, the methods of the dialect drivers,
and `rediscache.NewCache` applied to `redis.NewClient`. -/
structure Env (σ : Type) where
  sha256 : Bytes → Bytes
  pbkdf2Key : Bytes → Bytes → Nat → Nat → Bytes
  Atoi : String → Except Error Int
  statNotExist : String → Bool
  MkdirAll : String → Option Error
  DirCache : String → Backend σ
  sqlOpen : String → String → Except Error DB
  Ping : DB → Option Error
  dialect : sql.Dialect → DB → Backend σ
  redisNewCache : RedisOptions → Except Error (Backend σ)

/-- Calls construction makes that touch a directory, a database or a client, recorded
in program order. -/
inductive Setup where
  | Stat (dir : String)
  | MkdirAll (dir : String)
  | Open (driver dsn : String)
  | Ping (db : DB)
  | NewClient (opts : RedisOptions)
  deriving DecidableEq, Repr

/-- A Go `(value, error)` result as the backend contract has it; a panic has no
counterpart there and is reported as an error. -/
def Result.toExcept {α : Type} : Result α → Except Error α
  | .ok v => .ok v
  | .err e => .error e
  | .panic msg => .error (.external msg)

/-- A Go `error` result as the backend contract has it. -/
def Result.toError : Result Unit → Option Error
  | .ok _ => none
  | .err e => some e
  | .panic msg => some (.external msg)

/-- The adapter seen through the interface `autocert.Cache`. -/
def sql.Cache.asBackend {σ : Type} (m : sql.Cache σ) : Backend σ where
  Get := fun s key => ((m.Get s key).ret.toExcept, (m.Get s key).st)
  Put := fun s key data => ((m.Put s key data).ret.toError, (m.Put s key data).st)
  Delete := fun s key => ((m.Delete s key).ret.toError, (m.Delete s key).st)

/-- Function `newDirCacheBackend`. -/
def newDirCacheBackend {σ : Type} (env : Env σ) (options : Options) :
    Result (Backend σ) × List Setup :=
  match options "path" with
  | none => (.err (.Errorf "Option 'path' is required for 'dir' cache backend"), [])
  | some dir =>
    if env.statNotExist dir then
      match env.MkdirAll dir with
      | some e => (.err e, [.Stat dir, .MkdirAll dir])
      | none => (.ok (env.DirCache dir), [.Stat dir, .MkdirAll dir])
    else (.ok (env.DirCache dir), [.Stat dir])

/-- Function `newSQLCacheBackend`. -/
def newSQLCacheBackend {σ : Type} (env : Env σ) (options : Options) :
    Result (Backend σ) × List Setup :=
  match options "driver" with
  | none => (.err (.Errorf "No driver specified"), [])
  | some driver =>
    match options "dsn" with
    | none => (.err (.Errorf "dsn option to backend is required"), [])
    | some dsn =>
      match env.sqlOpen driver dsn with
      | .error e =>
        (.err (.Errorf ("Error establishing database connection: " ++ e.message)),
          [.Open driver dsn])
      | .ok db =>
        match env.Ping db with
        | some e =>
          (.err (.Errorf ("Error contacting database: " ++ e.message)),
            [.Open driver dsn, .Ping db])
        | none =>
          match sql.NewCache env.dialect db with
          | .ok m => (.ok m.asBackend, [.Open driver dsn, .Ping db])
          | .err e => (.err e, [.Open driver dsn, .Ping db])
          | .panic msg => (.panic msg, [.Open driver dsn, .Ping db])

/-- Function `newRedisCacheBackend`. -/
def newRedisCacheBackend {σ : Type} (env : Env σ) (options : Options) :
    Result (Backend σ) × List Setup :=
  match options "addr" with
  | none => (.err (.Errorf "No 'addr' specified for Redis cache"), [])
  | some addr =>
    if addr = "" then (.err (.Errorf "No 'addr' specified for Redis cache"), [])
    else
      match env.Atoi ((options "db").getD "0") with
      | .error e => (.err (.Errorf ("Error parsing db field: " ++ e.message)), [])
      | .ok db =>
        match env.redisNewCache ⟨addr, (options "password").getD "", db⟩ with
        | .ok b => (.ok b, [.NewClient ⟨addr, (options "password").getD "", db⟩])
        | .error e => (.err e, [.NewClient ⟨addr, (options "password").getD "", db⟩])

/-- Lines 197 to 200 of `NewCacheFactory`: the key derived from a passphrase.  The
digest has 32 bytes, so `key[:15]` and `key[16:32]` are in range. -/
def deriveKey {σ : Type} (env : Env σ) (encryptionKey : String) : Bytes :=
  env.pbkdf2Key ((env.sha256 (stringBytes encryptionKey)).take 15)
    (((env.sha256 (stringBytes encryptionKey)).take 32).drop 16) 1048 32

/-- Lines 226 to 233 of `NewCacheFactory`: the decorator around backend `b`, returned
with a nil error. -/
def newDecorator {σ : Type} (options : Options) (encKey : Option Bytes)
    (b : Option (Backend σ)) : Cache σ :=
  { encryptionKey := encKey,
    usePrecaching :=
      match options "usePrecaching" with
      | some str => (strconv.ParseBool str).1
      | none => false,
    precache := fun _ => none,
    backend := b }

/-- Function `NewCacheFactory`, with the calls it made on the outside. -/
def NewCacheFactory {σ : Type} (env : Env σ) (options : Options) :
    Result (Cache σ) × List Setup :=
  match options "backend" with
  | none => (.err (.Errorf "Missing required 'backend' parameter"), [])
  | some backend =>
    let encKey : Option Bytes :=
      match options "encryptionKey" with
      | some encryptionKey =>
        if encryptionKey ≠ "" then some (deriveKey env encryptionKey) else none
      | none => none
    if backend = CacheBackendSQL then
      match newSQLCacheBackend env options with
      | (.ok b, tr) => (.ok (newDecorator options encKey (some b)), tr)
      | (.err e, tr) => (.err e, tr)
      | (.panic msg, tr) => (.panic msg, tr)
    else if backend = CacheBackendDir then
      match newDirCacheBackend env options with
      | (.ok b, tr) => (.ok (newDecorator options encKey (some b)), tr)
      | (.err e, tr) => (.err e, tr)
      | (.panic msg, tr) => (.panic msg, tr)
    else if backend = CacheBackendRedis then
      match newRedisCacheBackend env options with
      | (.ok b, tr) => (.ok (newDecorator options encKey (some b)), tr)
      | (.err e, tr) => (.err e, tr)
      | (.panic msg, tr) => (.panic msg, tr)
    else (.ok (newDecorator options encKey none), [])

/-- An environment for worked examples: every directory exists, every connection is a
MySQL connection that answers, every backend is the in-memory store, and the digest and
the key derivation are fixed-length stand-ins. -/
def exampleEnv : Env (String → Option Bytes) where
  sha256 := fun x => (x ++ List.replicate 32 0).take 32
  pbkdf2Key := fun pw salt _ n => (pw ++ salt ++ List.replicate n 0).take n
  Atoi := fun str => match str.toInt? with
    | some n => .ok n
    | none => .error (.external "strconv.Atoi: invalid syntax")
  statNotExist := fun _ => false
  MkdirAll := fun _ => none
  DirCache := fun _ => memBackend
  sqlOpen := fun _ _ => .ok ⟨"*mysql.MySQLDriver"⟩
  Ping := fun _ => none
  dialect := fun _ _ => memBackend
  redisNewCache := fun _ => .ok memBackend

/-- A configuration map with one entry. -/
def oneOption (name value : String) : Options :=
  fun k => if k = name then some value else none

/-- The configuration of the test `TestInitializeDirCacheWithEncryptionAndPrecaching`,
with "/tmp/dircache" for the directory. -/
def dirOptions : Options := fun k =>
  if k = "backend" then some "dir"
  else if k = "path" then some "/tmp/dircache"
  else if k = "encryptionKey" then some "testkey"
  else if k = "usePrecaching" then some "true"
  else none

/-- The key a call on the decorator is for. -/
def Op.key : Op → String
  | .Get key => key
  | .Put key _ _ => key
  | .Delete key => key

/-- The key an event passes to the backend; `none` for an event that is not a backend
call. -/
def Event.backendKey : Event → Option String
  | .backendGet key => some key
  | .backendPut key _ => some key
  | .backendDelete key => some key
  | _ => none

/-- A backend stub that fails every call. -/
def failBackend : Backend Unit where
  Get := fun s _ => (.error (.external "backend unavailable"), s)
  Put := fun s _ _ => (some (.external "backend unavailable"), s)
  Delete := fun s _ => (some (.external "backend unavailable"), s)

/-! ## The CFB stream -/

theorem cfb.XORKeyStream_length (x : cfb) (src : Bytes) :
    (x.XORKeyStream src).length = src.length := by
  induction src generalizing x with
  | nil => rfl
  | cons s src ih => simp [cfb.XORKeyStream, ih]

/-- Decrypting what the encrypting stream produced, from the same register state,
gives the source back. -/
theorem cfb.XORKeyStream_roundtrip (b : Bytes → Bytes) (next out : Bytes) (used : Nat)
    (src : Bytes) :
    cfb.XORKeyStream ⟨b, next, out, used, true⟩
      (cfb.XORKeyStream ⟨b, next, out, used, false⟩ src) = src := by
  induction src generalizing next out used with
  | nil => rfl
  | cons s src ih =>
    by_cases h : used = BlockSize
    · simp [cfb.XORKeyStream, h, ih, Nat.xor_cancel_right]
    · simp [cfb.XORKeyStream, h, ih, Nat.xor_cancel_right]

/-! ## encrypt and decrypt -/

theorem aes.NewCipher_valid (E : Bytes → Bytes → Bytes) (key : Bytes) (h : validKey key) :
    aes.NewCipher E key = .ok (E key) := by
  unfold validKey at h
  simp [aes.NewCipher, h]

theorem Cache.encrypt_ok {σ : Type} (E : Bytes → Bytes → Bytes) (c : Cache σ) (key iv v : Bytes)
    (hk : c.encryptionKey = some key) (hv : validKey key) (hiv : iv.length = BlockSize) :
    c.encrypt E (.ok iv) v = .ok (iv ++ cfbEncrypt E key iv v) := by
  simp [Cache.encrypt, hk, aes.NewCipher_valid E key hv, NewCFBEncrypter, newCFB, hiv,
    cfbEncrypt]

theorem Cache.decrypt_ok {σ : Type} (E : Bytes → Bytes → Bytes) (c : Cache σ) (key p : Bytes)
    (hk : c.encryptionKey = some key) (hv : validKey key) (hp : BlockSize ≤ p.length) :
    c.decrypt E p = .ok (cfbDecrypt E key (p.take BlockSize) (p.drop BlockSize)) := by
  have h1 : ¬ p.length < BlockSize := by omega
  simp [Cache.decrypt, hk, aes.NewCipher_valid E key hv, h1, slice, hp, NewCFBDecrypter,
    newCFB, cfbDecrypt]

theorem Cache.decrypt_short {σ : Type} (E : Bytes → Bytes → Bytes) (c : Cache σ) (key p : Bytes)
    (hk : c.encryptionKey = some key) (hv : validKey key) (hp : p.length < BlockSize) :
    c.decrypt E p = .err (.Errorf "Ciphertext is too short. Probably corrupted data") := by
  simp [Cache.decrypt, hk, aes.NewCipher_valid E key hv, hp]

theorem cfbDecrypt_cfbEncrypt (E : Bytes → Bytes → Bytes) (key iv v : Bytes) :
    cfbDecrypt E key iv (cfbEncrypt E key iv v) = v :=
  cfb.XORKeyStream_roundtrip (E key) iv _ _ v

theorem Cache.decrypt_encrypt {σ : Type} (E : Bytes → Bytes → Bytes) (c : Cache σ)
    (key iv v : Bytes) (hk : c.encryptionKey = some key) (hv : validKey key)
    (hiv : iv.length = BlockSize) :
    c.decrypt E (iv ++ cfbEncrypt E key iv v) = .ok v := by
  rw [Cache.decrypt_ok E c key _ hk hv (by simp [hiv])]
  have h1 : (iv ++ cfbEncrypt E key iv v).take BlockSize = iv := by
    rw [← hiv]; simp
  have h2 : (iv ++ cfbEncrypt E key iv v).drop BlockSize = cfbEncrypt E key iv v := by
    rw [← hiv]; simp
  rw [h1, h2, cfbDecrypt_cfbEncrypt]

/-! ## Frame facts: the calls only ever replace the precache -/

theorem Cache.Get_fields {σ : Type} (E : Bytes → Bytes → Bytes) (c : Cache σ) (s : σ)
    (key : String) :
    (c.Get E s key).cache.backend = c.backend ∧
    (c.Get E s key).cache.encryptionKey = c.encryptionKey ∧
    (c.Get E s key).cache.usePrecaching = c.usePrecaching := by
  unfold Cache.Get Cache.getBackend
  repeat' split
  all_goals exact ⟨rfl, rfl, rfl⟩

theorem Cache.Put_fields {σ : Type} (E : Bytes → Bytes → Bytes) (c : Cache σ) (s : σ)
    (rnd : Except Error Bytes) (key : String) (data : Bytes) :
    (c.Put E s rnd key data).cache.backend = c.backend ∧
    (c.Put E s rnd key data).cache.encryptionKey = c.encryptionKey ∧
    (c.Put E s rnd key data).cache.usePrecaching = c.usePrecaching := by
  unfold Cache.Put Cache.putBackend
  repeat' split
  all_goals exact ⟨rfl, rfl, rfl⟩

theorem Cache.Delete_fields {σ : Type} (c : Cache σ) (s : σ) (key : String) :
    (c.Delete s key).cache.backend = c.backend ∧
    (c.Delete s key).cache.encryptionKey = c.encryptionKey ∧
    (c.Delete s key).cache.usePrecaching = c.usePrecaching := by
  unfold Cache.Delete
  dsimp only
  repeat' split
  all_goals exact ⟨rfl, rfl, rfl⟩

theorem memBackend_faithful : memBackend.Faithful := by
  intro s k p _
  simp [memBackend]

/-! ## How Put and Get compute -/

theorem Cache.Put_plain {σ : Type} (E : Bytes → Bytes → Bytes) (c : Cache σ) (s : σ)
    (rnd : Except Error Bytes) (k : String) (v : Bytes) (hk : c.encryptionKey = none) :
    c.Put E s rnd k v = c.putBackend s k v v [] := by
  simp [Cache.Put, hk]

theorem Cache.Put_enc {σ : Type} (E : Bytes → Bytes → Bytes) (c : Cache σ) (s : σ)
    (key iv : Bytes) (k : String) (v : Bytes) (hk : c.encryptionKey = some key)
    (hv : validKey key) (hiv : iv.length = BlockSize) :
    c.Put E s (.ok iv) k v = c.putBackend s k v (iv ++ cfbEncrypt E key iv v) [.encrypt v] := by
  simp [Cache.Put, hk, Cache.encrypt_ok E c key iv v hk hv hiv]

theorem Cache.putBackend_ok {σ : Type} (c : Cache σ) (b : Backend σ) (s s1 : σ) (k : String)
    (v p : Bytes) (tr : List Event) (hb : c.backend = some b) (hp : b.Put s k p = (none, s1)) :
    c.putBackend s k v p tr =
      if c.usePrecaching then
        ⟨.ok (), { c with precache := c.precache.Store k v }, s1,
          tr ++ [.backendPut k p, .precacheStore k v]⟩
      else ⟨.ok (), c, s1, tr ++ [.backendPut k p]⟩ := by
  simp [Cache.putBackend, hb, hp]

theorem Cache.putBackend_err {σ : Type} (c : Cache σ) (b : Backend σ) (s s1 : σ) (k : String)
    (v p : Bytes) (tr : List Event) (e : Error) (hb : c.backend = some b)
    (hp : b.Put s k p = (some e, s1)) :
    c.putBackend s k v p tr = ⟨.err e, c, s1, tr ++ [.backendPut k p]⟩ := by
  simp [Cache.putBackend, hb, hp]

theorem Cache.Get_hit {σ : Type} (E : Bytes → Bytes → Bytes) (c : Cache σ) (s : σ) (k : String)
    (v : Bytes) (hu : c.usePrecaching = true) (hpc : c.precache k = some v) :
    c.Get E s k = ⟨.ok v, c, s, [.precacheLoad k]⟩ := by
  simp [Cache.Get, hu, hpc]

theorem Cache.Get_miss {σ : Type} (E : Bytes → Bytes → Bytes) (c : Cache σ) (s : σ) (k : String)
    (h : c.usePrecaching = false ∨ c.precache k = none) :
    c.Get E s k =
      c.getBackend E s k (if c.usePrecaching then [.precacheLoad k] else []) := by
  rcases h with h | h
  · simp [Cache.Get, h]
  · cases hu : c.usePrecaching <;> simp [Cache.Get, hu, h]

theorem Cache.getBackend_err {σ : Type} (E : Bytes → Bytes → Bytes) (c : Cache σ)
    (b : Backend σ) (s s1 : σ) (k : String) (tr : List Event) (e : Error)
    (hb : c.backend = some b) (hg : b.Get s k = (.error e, s1)) :
    c.getBackend E s k tr = ⟨.err e, c, s1, tr ++ [.backendGet k]⟩ := by
  simp [Cache.getBackend, hb, hg]

theorem Cache.getBackend_plain {σ : Type} (E : Bytes → Bytes → Bytes) (c : Cache σ)
    (b : Backend σ) (s s1 : σ) (k : String) (tr : List Event) (p : Bytes)
    (hb : c.backend = some b) (hg : b.Get s k = (.ok p, s1)) (hk : c.encryptionKey = none) :
    c.getBackend E s k tr =
      ⟨.ok p, { c with precache := c.precache.Store k p }, s1,
        tr ++ [.backendGet k, .precacheStore k p]⟩ := by
  simp [Cache.getBackend, hb, hg, hk]

theorem Cache.getBackend_enc_ok {σ : Type} (E : Bytes → Bytes → Bytes) (c : Cache σ)
    (b : Backend σ) (s s1 : σ) (k : String) (tr : List Event) (p key plain : Bytes)
    (hb : c.backend = some b) (hg : b.Get s k = (.ok p, s1)) (hk : c.encryptionKey = some key)
    (hd : c.decrypt E p = .ok plain) :
    c.getBackend E s k tr =
      if c.usePrecaching then
        ⟨.ok plain, { c with precache := c.precache.Store k plain }, s1,
          tr ++ [.backendGet k, .decrypt p, .precacheStore k plain]⟩
      else ⟨.ok plain, c, s1, tr ++ [.backendGet k, .decrypt p]⟩ := by
  simp [Cache.getBackend, hb, hg, hk, hd]

theorem Cache.getBackend_enc_err {σ : Type} (E : Bytes → Bytes → Bytes) (c : Cache σ)
    (b : Backend σ) (s s1 : σ) (k : String) (tr : List Event) (p key : Bytes) (e : Error)
    (hb : c.backend = some b) (hg : b.Get s k = (.ok p, s1)) (hk : c.encryptionKey = some key)
    (hd : c.decrypt E p = .err e) :
    c.getBackend E s k tr = ⟨.err e, c, s1, tr ++ [.backendGet k, .decrypt p]⟩ := by
  simp [Cache.getBackend, hb, hg, hk, hd]

/-- The decryption result depends on the decorator only through its key. -/
theorem Cache.decrypt_congr {σ : Type} (E : Bytes → Bytes → Bytes) (c c1 : Cache σ) (p : Bytes)
    (h : c1.encryptionKey = c.encryptionKey) : c1.decrypt E p = c.decrypt E p := by
  simp [Cache.decrypt, h]

/-! ## C1: round trip -/

/-- C1. Round trip: for every key, value, IV and each of the four settings (key
configured or nil, precaching on or off), over a faithful store that accepts the write,
`Put(k, v)` succeeds and the following `Get(k)` returns `(v, nil)`. -/
theorem Cache.Put_Get_roundtrip {σ : Type} (E : Bytes → Bytes → Bytes) (c : Cache σ)
    (b : Backend σ) (s : σ) (iv : Bytes) (k : String) (v : Bytes)
    (hb : c.backend = some b)
    (hkey : ∀ key, c.encryptionKey = some key → validKey key)
    (hiv : iv.length = BlockSize)
    (hacc : ∀ p, (b.Put s k p).1 = none)
    (hf : b.Faithful) :
    (c.Put E s (.ok iv) k v).ret = .ok () ∧
    ((c.Put E s (.ok iv) k v).cache.Get E (c.Put E s (.ok iv) k v).st k).ret = .ok v := by
  -- the payload handed to the backend
  obtain ⟨p, hput, hdec⟩ : ∃ p, c.Put E s (.ok iv) k v = c.putBackend s k v p
      (if c.encryptionKey = none then [] else [.encrypt v]) ∧
      (c.encryptionKey = none → p = v) ∧
      (∀ key, c.encryptionKey = some key → c.decrypt E p = .ok v) := by
    cases hk : c.encryptionKey with
    | none => exact ⟨v, by simp [Cache.Put_plain E c s _ k v hk], fun _ => rfl, by simp⟩
    | some key =>
      refine ⟨iv ++ cfbEncrypt E key iv v, ?_, by simp, ?_⟩
      · simp [Cache.Put_enc E c s key iv k v hk (hkey key hk) hiv]
      · intro key1 h1
        cases h1
        exact Cache.decrypt_encrypt E c key iv v hk (hkey key hk) hiv
  have h1 := hacc p
  have h2 := hf s k p h1
  rcases hp : b.Put s k p with ⟨e, s1⟩
  rw [hp] at h1 h2
  simp only at h1 h2
  subst h1
  rcases hg : b.Get s1 k with ⟨r, s2⟩
  rw [hg] at h2
  simp only at h2
  subst h2
  rw [hput, Cache.putBackend_ok c b s s1 k v p _ hb hp]
  cases hu : c.usePrecaching
  · simp only [Bool.false_eq_true, if_false, true_and]
    rw [Cache.Get_miss E c s1 k (Or.inl hu), hu]
    cases hk : c.encryptionKey with
    | none =>
      rw [Cache.getBackend_plain E c b s1 s2 k _ p hb hg hk, hdec.1 hk]
    | some key =>
      rw [Cache.getBackend_enc_ok E c b s1 s2 k _ p key v hb hg hk (hdec.2 key hk), hu]
      simp
  · simp only [if_true, true_and]
    rw [Cache.Get_hit E _ s1 k v rfl (by simp [Precache.Store])]

/-- Witness for C1: key "test-key", value "test-data", a 32-byte key, encryption on and
precaching off, over the in-memory store. -/
theorem Cache.Put_Get_roundtrip_witness :
    validKey exampleKey ∧ exampleIV.length = BlockSize ∧ memBackend.Faithful ∧
    (Cache.Put exampleE ⟨some memBackend, some exampleKey, false, emptyMap⟩ emptyMap
      (.ok exampleIV) "test-key" testData).ret = .ok () ∧
    (Cache.Get exampleE
      (Cache.Put exampleE ⟨some memBackend, some exampleKey, false, emptyMap⟩ emptyMap
        (.ok exampleIV) "test-key" testData).cache
      (Cache.Put exampleE ⟨some memBackend, some exampleKey, false, emptyMap⟩ emptyMap
        (.ok exampleIV) "test-key" testData).st "test-key").ret = .ok testData :=
  ⟨by decide, by decide, memBackend_faithful,
    Cache.Put_Get_roundtrip exampleE ⟨some memBackend, some exampleKey, false, emptyMap⟩
      memBackend emptyMap exampleIV "test-key" testData rfl
      (by intro key h; cases h; decide) (by decide) (fun _ => rfl) memBackend_faithful⟩

/-! ## C2: deletion finality -/

theorem Cache.Delete_eq {σ : Type} (c : Cache σ) (b : Backend σ) (s : σ) (k : String)
    (hb : c.backend = some b) :
    c.Delete s k =
      ⟨Result.ofError (b.Delete s k).1,
        if c.usePrecaching then { c with precache := c.precache.Delete k } else c,
        (b.Delete s k).2,
        (if c.usePrecaching then [.precacheDelete k] else []) ++ [.backendDelete k]⟩ := by
  cases hu : c.usePrecaching <;> simp [Cache.Delete, hu, hb]

/-- After a Delete of `k` the next Get of `k` is not a precache hit. -/
theorem Cache.Delete_not_hit {σ : Type} (c : Cache σ) (s : σ) (k : String) :
    (c.Delete s k).cache.usePrecaching = false ∨ (c.Delete s k).cache.precache k = none := by
  cases hu : c.usePrecaching
  · left; rw [(Cache.Delete_fields c s k).2.2, hu]
  · right
    unfold Cache.Delete
    dsimp only
    split <;> simp [hu, Precache.Delete]

/-- C2. Deletion finality: over a backend whose Get of a key just deleted is the cache
miss, with precaching on or off and encryption on or off, the sequence
`Put(k, v); Delete(k); Get(k)` ends with Get returning `(nil, ErrCacheMiss)`. -/
theorem Cache.putDeleteGet_miss {σ : Type} (E : Bytes → Bytes → Bytes) (c : Cache σ)
    (b : Backend σ) (s : σ) (rnd : Except Error Bytes) (k : String) (v : Bytes)
    (hb : c.backend = some b)
    (habsent : ∀ s0, (b.Get (b.Delete s0 k).2 k).1 = .error .ErrCacheMiss) :
    (c.putDeleteGet E s rnd k v).ret = .err .ErrCacheMiss := by
  unfold Cache.putDeleteGet
  generalize hc1 : (c.Put E s rnd k v).cache = c1
  generalize (c.Put E s rnd k v).st = s1
  have hb1 : c1.backend = some b := by
    rw [← hc1, (Cache.Put_fields E c s rnd k v).1, hb]
  have hb2 : (c1.Delete s1 k).cache.backend = some b := by
    rw [(Cache.Delete_fields c1 s1 k).1, hb1]
  have hst : (c1.Delete s1 k).st = (b.Delete s1 k).2 := by
    rw [Cache.Delete_eq c1 b s1 k hb1]
  rw [Cache.Get_miss E _ _ k (Cache.Delete_not_hit c1 s1 k), hst]
  have h := habsent s1
  rcases hg : b.Get (b.Delete s1 k).2 k with ⟨r, s2⟩
  rw [hg] at h
  simp only at h
  subst h
  rw [Cache.getBackend_err E _ b _ s2 k _ _ hb2 hg]

/-- Witness for C2: the in-memory store, encryption and precaching on. -/
theorem Cache.putDeleteGet_miss_witness :
    (∀ s0 : String → Option Bytes,
      (memBackend.Get (memBackend.Delete s0 "test-key").2 "test-key").1
        = .error .ErrCacheMiss) ∧
    (Cache.putDeleteGet exampleE ⟨some memBackend, some exampleKey, true, emptyMap⟩ emptyMap
      (.ok exampleIV) "test-key" testData).ret = .err .ErrCacheMiss :=
  ⟨fun _ => by simp [memBackend],
    Cache.putDeleteGet_miss exampleE ⟨some memBackend, some exampleKey, true, emptyMap⟩
      memBackend emptyMap (.ok exampleIV) "test-key" testData rfl
      (fun _ => by simp [memBackend])⟩

/-! ## C3: the precache shields the backend -/

theorem Cache.Get_precache_other {σ : Type} (E : Bytes → Bytes → Bytes) (c : Cache σ) (s : σ)
    (key k : String) (h : k ≠ key) :
    (c.Get E s key).cache.precache k = c.precache k := by
  unfold Cache.Get Cache.getBackend
  repeat' split
  all_goals simp [Precache.Store, h]

theorem Cache.Put_precache_other {σ : Type} (E : Bytes → Bytes → Bytes) (c : Cache σ) (s : σ)
    (rnd : Except Error Bytes) (key k : String) (data : Bytes) (h : k ≠ key) :
    (c.Put E s rnd key data).cache.precache k = c.precache k := by
  unfold Cache.Put Cache.putBackend
  repeat' split
  all_goals simp [Precache.Store, h]

theorem Cache.Delete_precache_other {σ : Type} (c : Cache σ) (s : σ) (key k : String)
    (h : k ≠ key) :
    (c.Delete s key).cache.precache k = c.precache k := by
  unfold Cache.Delete
  dsimp only
  repeat' split
  all_goals simp [Precache.Delete, h]

/-- A successful Put with precaching on leaves the plaintext in the precache. -/
theorem Cache.Put_ok_precache {σ : Type} (E : Bytes → Bytes → Bytes) (c : Cache σ) (s : σ)
    (rnd : Except Error Bytes) (k : String) (v : Bytes) (hu : c.usePrecaching = true)
    (hput : (c.Put E s rnd k v).ret = .ok ()) :
    (c.Put E s rnd k v).cache.precache k = some v := by
  revert hput
  unfold Cache.Put Cache.putBackend
  repeat' split
  all_goals simp_all [Precache.Store]

/-- A call that is not a Put or Delete of `k` keeps a precache entry of `k`. -/
theorem Cache.step_keeps_entry {σ : Type} (E : Bytes → Bytes → Bytes) (c : Cache σ) (s : σ)
    (k : String) (v : Bytes) (op : Op) (hu : c.usePrecaching = true)
    (hpc : c.precache k = some v) (hop : op.writes k = false) :
    (c.step E s op).1.usePrecaching = true ∧ (c.step E s op).1.precache k = some v := by
  cases op with
  | Get key =>
    refine ⟨by simp [Cache.step, (Cache.Get_fields E c s key).2.2, hu], ?_⟩
    by_cases h : k = key
    · subst h
      simp [Cache.step, Cache.Get_hit E c s k v hu hpc, hpc]
    · simp [Cache.step, Cache.Get_precache_other E c s key k h, hpc]
  | Put key data rnd =>
    have h : k ≠ key := by
      intro h; simp [Op.writes, h] at hop
    exact ⟨by simp [Cache.step, (Cache.Put_fields E c s rnd key data).2.2, hu],
      by simp [Cache.step, Cache.Put_precache_other E c s rnd key k data h, hpc]⟩
  | Delete key =>
    have h : k ≠ key := by
      intro h; simp [Op.writes, h] at hop
    exact ⟨by simp [Cache.step, (Cache.Delete_fields c s key).2.2, hu],
      by simp [Cache.step, Cache.Delete_precache_other c s key k h, hpc]⟩

theorem Cache.run_keeps_entry {σ : Type} (E : Bytes → Bytes → Bytes) (k : String) (v : Bytes)
    (ops : List Op) (hops : ∀ op ∈ ops, op.writes k = false) (c : Cache σ) (s : σ)
    (hu : c.usePrecaching = true) (hpc : c.precache k = some v) :
    (Cache.run E c s ops).1.usePrecaching = true ∧
    (Cache.run E c s ops).1.precache k = some v := by
  induction ops generalizing c s with
  | nil => exact ⟨hu, hpc⟩
  | cons op ops ih =>
    have h1 := Cache.step_keeps_entry E c s k v op hu hpc (hops op (List.mem_cons_self _ _))
    exact ih (fun o ho => hops o (List.mem_cons_of_mem _ ho)) _ _ h1.1 h1.2

/-- C3. Precache shields the backend: with precaching on, after a successful
`Put(k, v)` and any further calls that are not a Put or Delete of `k`, `Get(k)` returns
`(v, nil)` in every backend state, making no backend call (its only call is the precache
load) and leaving decorator and backend state as they were. -/
theorem Cache.Get_after_Put_shielded {σ : Type} (E : Bytes → Bytes → Bytes) (c : Cache σ)
    (s : σ) (rnd : Except Error Bytes) (k : String) (v : Bytes) (ops : List Op) (s1 : σ)
    (hu : c.usePrecaching = true)
    (hput : (c.Put E s rnd k v).ret = .ok ())
    (hops : ∀ op ∈ ops, op.writes k = false) :
    Cache.Get E (Cache.run E (c.Put E s rnd k v).cache (c.Put E s rnd k v).st ops).1 s1 k =
      ⟨.ok v, (Cache.run E (c.Put E s rnd k v).cache (c.Put E s rnd k v).st ops).1, s1,
        [.precacheLoad k]⟩ := by
  have h0 : (c.Put E s rnd k v).cache.usePrecaching = true := by
    rw [(Cache.Put_fields E c s rnd k v).2.2, hu]
  have h1 := Cache.run_keeps_entry E k v ops hops _ (c.Put E s rnd k v).st h0
    (Cache.Put_ok_precache E c s rnd k v hu hput)
  exact Cache.Get_hit E _ s1 k v h1.1 h1.2

/-- Witness for C3: a backend that fails every Get after the write; two intervening
Gets, then `Get("test-key")` still returns the value put. -/
theorem Cache.Get_after_Put_shielded_witness :
    (Cache.Put exampleE ⟨some downBackend, none, true, emptyMap⟩ 0
      (.ok exampleIV) "test-key" testData).ret = .ok () ∧
    (∀ op ∈ [Op.Get "test-key", Op.Get "other"], op.writes "test-key" = false) ∧
    Cache.Get exampleE
      (Cache.run exampleE
        (Cache.Put exampleE ⟨some downBackend, none, true, emptyMap⟩ 0
          (.ok exampleIV) "test-key" testData).cache
        (Cache.Put exampleE ⟨some downBackend, none, true, emptyMap⟩ 0
          (.ok exampleIV) "test-key" testData).st
        [Op.Get "test-key", Op.Get "other"]).1 7 "test-key" =
      ⟨.ok testData,
        (Cache.run exampleE
          (Cache.Put exampleE ⟨some downBackend, none, true, emptyMap⟩ 0
            (.ok exampleIV) "test-key" testData).cache
          (Cache.Put exampleE ⟨some downBackend, none, true, emptyMap⟩ 0
            (.ok exampleIV) "test-key" testData).st
          [Op.Get "test-key", Op.Get "other"]).1, 7, [.precacheLoad "test-key"]⟩ :=
  ⟨rfl, by simp [Op.writes],
    Cache.Get_after_Put_shielded exampleE ⟨some downBackend, none, true, emptyMap⟩ 0
      (.ok exampleIV) "test-key" testData [Op.Get "test-key", Op.Get "other"] 7 rfl rfl
      (by simp [Op.writes])⟩

/-! ## C4: a failed Put leaves the precache alone -/

/-- C4. Put is atomic with respect to the precache: if `Put` returns an error `e`, the
decorator (its precache included) is exactly what it was before the call, and `e` is the
error `encrypt` returned or the error the backend's Put returned for the payload it was
handed. -/
theorem Cache.Put_err_atomic {σ : Type} (E : Bytes → Bytes → Bytes) (c : Cache σ) (s : σ)
    (rnd : Except Error Bytes) (k : String) (v : Bytes) (e : Error)
    (herr : (c.Put E s rnd k v).ret = .err e) :
    (c.Put E s rnd k v).cache = c ∧
    ((c.encryptionKey ≠ none ∧ c.encrypt E rnd v = .err e) ∨
      ∃ b p, c.backend = some b ∧ (b.Put s k p).1 = some e ∧
        (c.encryptionKey = none ∧ p = v ∨ c.encryptionKey ≠ none ∧ c.encrypt E rnd v = .ok p) ∧
        Event.backendPut k p ∈ (c.Put E s rnd k v).trace) := by
  revert herr
  unfold Cache.Put Cache.putBackend
  repeat' split
  all_goals simp_all

/-- Witness for C4: the backend rejects the write of an encrypted payload. -/
theorem Cache.Put_err_atomic_witness :
    (Cache.Put exampleE ⟨some rejectBackend, some exampleKey, true, examplePrecache⟩ ()
      (.ok exampleIV) "test-key" [9]).ret = .err (.external "write rejected") ∧
    (Cache.Put exampleE ⟨some rejectBackend, some exampleKey, true, examplePrecache⟩ ()
      (.ok exampleIV) "test-key" [9]).cache
      = ⟨some rejectBackend, some exampleKey, true, examplePrecache⟩ :=
  ⟨rfl,
    (Cache.Put_err_atomic exampleE ⟨some rejectBackend, some exampleKey, true, examplePrecache⟩
      () (.ok exampleIV) "test-key" [9] (.external "write rejected") rfl).1⟩

/-! ## C5: Delete evicts before delegating -/

/-- C5. Delete evicts before delegating: with precaching on, for every key and every
backend, `Delete(k)` first deletes `k` from the precache and then calls the backend's
Delete; afterwards the precache has no entry for `k`, and the value returned is exactly
the backend's Delete result for the same key. -/
theorem Cache.Delete_evicts {σ : Type} (c : Cache σ) (b : Backend σ) (s : σ) (k : String)
    (hu : c.usePrecaching = true) (hb : c.backend = some b) :
    (c.Delete s k).cache.precache k = none ∧
    (c.Delete s k).ret = Result.ofError (b.Delete s k).1 ∧
    (c.Delete s k).trace = [.precacheDelete k, .backendDelete k] := by
  rw [Cache.Delete_eq c b s k hb]
  simp [hu, Precache.Delete]

/-- Witness for C5: a backend whose Delete always fails, the key in the precache. -/
theorem Cache.Delete_evicts_witness :
    examplePrecache "test-key" = some testData ∧
    (Cache.Delete ⟨some rejectBackend, none, true, examplePrecache⟩ () "test-key").cache.precache
      "test-key" = none ∧
    (Cache.Delete ⟨some rejectBackend, none, true, examplePrecache⟩ () "test-key").ret
      = Result.ofError (rejectBackend.Delete () "test-key").1 ∧
    (Cache.Delete ⟨some rejectBackend, none, true, examplePrecache⟩ () "test-key").trace
      = [.precacheDelete "test-key", .backendDelete "test-key"] :=
  ⟨rfl, Cache.Delete_evicts ⟨some rejectBackend, none, true, examplePrecache⟩ rejectBackend ()
    "test-key" rfl rfl⟩

/-! ## C6: backend errors pass through Get -/

/-- C6. Backend errors pass through Get unchanged: when `k` is not a precache hit and the
backend's Get returns an error `e`, `Get(k)` returns `(nil, e)`, makes no decrypt call and
leaves the decorator (its precache included) unchanged. -/
theorem Cache.Get_backend_err {σ : Type} (E : Bytes → Bytes → Bytes) (c : Cache σ)
    (b : Backend σ) (s : σ) (k : String) (e : Error)
    (hmiss : c.usePrecaching = false ∨ c.precache k = none)
    (hb : c.backend = some b)
    (hg : (b.Get s k).1 = .error e) :
    (c.Get E s k).ret = .err e ∧
    (c.Get E s k).cache = c ∧
    (∀ p, Event.decrypt p ∉ (c.Get E s k).trace) ∧
    (∀ d, Event.precacheStore k d ∉ (c.Get E s k).trace) := by
  rcases hg1 : b.Get s k with ⟨r, s1⟩
  rw [hg1] at hg
  simp only at hg
  subst hg
  rw [Cache.Get_miss E c s k hmiss, Cache.getBackend_err E c b s s1 k _ e hb hg1]
  cases c.usePrecaching <;> simp

/-- Witness for C6: the empty in-memory store reports the cache miss. -/
theorem Cache.Get_backend_err_witness :
    (memBackend.Get emptyMap "test-key").1 = .error .ErrCacheMiss ∧
    (Cache.Get exampleE ⟨some memBackend, some exampleKey, true, emptyMap⟩ emptyMap
      "test-key").ret = .err .ErrCacheMiss :=
  ⟨rfl,
    (Cache.Get_backend_err exampleE ⟨some memBackend, some exampleKey, true, emptyMap⟩
      memBackend emptyMap "test-key" .ErrCacheMiss (Or.inr rfl) rfl rfl).1⟩

/-! ## C7: short ciphertext -/

/-- C7. Corrupted ciphertext detection: with a valid encryption key configured, when
`k` is not a precache hit and the backend's Get succeeds with a payload shorter than one
cipher block, `Get(k)` returns `(nil, err)` with the "too short" error (not a panic) and
leaves the decorator (its precache included) unchanged, storing nothing. -/
theorem Cache.Get_short_ciphertext {σ : Type} (E : Bytes → Bytes → Bytes) (c : Cache σ)
    (b : Backend σ) (s : σ) (k : String) (key p : Bytes)
    (hk : c.encryptionKey = some key) (hv : validKey key)
    (hmiss : c.usePrecaching = false ∨ c.precache k = none)
    (hb : c.backend = some b)
    (hg : (b.Get s k).1 = .ok p) (hp : p.length < BlockSize) :
    (c.Get E s k).ret = .err (.Errorf "Ciphertext is too short. Probably corrupted data") ∧
    (c.Get E s k).cache = c ∧
    (∀ k1 d, Event.precacheStore k1 d ∉ (c.Get E s k).trace) := by
  rcases hg1 : b.Get s k with ⟨r, s1⟩
  rw [hg1] at hg
  simp only at hg
  subst hg
  rw [Cache.Get_miss E c s k hmiss,
    Cache.getBackend_enc_err E c b s s1 k _ p key _ hb hg1 hk (Cache.decrypt_short E c key p hk hv hp)]
  cases c.usePrecaching <;> simp

/-- Witness for C7: a 32-byte key and a three-byte payload. -/
theorem Cache.Get_short_ciphertext_witness :
    validKey exampleKey ∧ (rejectBackend.Get () "test-key").1 = .ok [1, 2, 3] ∧
    (Cache.Get exampleE ⟨some rejectBackend, some exampleKey, true, emptyMap⟩ ()
      "test-key").ret = .err (.Errorf "Ciphertext is too short. Probably corrupted data") :=
  ⟨by decide, rfl,
    (Cache.Get_short_ciphertext exampleE ⟨some rejectBackend, some exampleKey, true, emptyMap⟩
      rejectBackend () "test-key" exampleKey [1, 2, 3] rfl (by decide) (Or.inr rfl) rfl rfl
      (by decide)).1⟩

/-! ## C8: the precache holds plaintext -/

theorem Cache.encrypt_length {σ : Type} (E : Bytes → Bytes → Bytes) (c : Cache σ)
    (rnd : Except Error Bytes) (v p : Bytes) (h : c.encrypt E rnd v = .ok p) :
    p.length = v.length + BlockSize := by
  revert h
  unfold Cache.encrypt NewCFBEncrypter newCFB
  repeat' split
  all_goals intro h
  all_goals simp at h
  all_goals simp_all [cfb.XORKeyStream_length]
  subst h
  simp [cfb.XORKeyStream_length]
  omega

theorem Cache.decrypt_length {σ : Type} (E : Bytes → Bytes → Bytes) (c : Cache σ)
    (p d : Bytes) (h : c.decrypt E p = .ok d) :
    p.length = d.length + BlockSize := by
  unfold Cache.decrypt at h
  cases hn : aes.NewCipher E (c.encryptionKey.getD []) with
  | error e => simp [hn] at h
  | ok block =>
    simp only [hn] at h
    by_cases hlt : p.length < BlockSize
    · simp [hlt] at h
    · have hle : BlockSize ≤ p.length := by omega
      simp [hlt, slice, hle, NewCFBDecrypter, newCFB] at h
      subst h
      simp [cfb.XORKeyStream_length]
      omega

/-- Where a precache entry after a Get comes from, with a key configured: it was there
before, or it is the value this Get decrypted and returned for the same key. -/
theorem Cache.Get_entry_origin {σ : Type} (E : Bytes → Bytes → Bytes) (c : Cache σ) (s : σ)
    (key k : String) (encKey d : Bytes) (hk : c.encryptionKey = some encKey)
    (h : (c.Get E s key).cache.precache k = some d) :
    c.precache k = some d ∨
      (key = k ∧ (c.Get E s key).ret = .ok d ∧
        (c.Get E s key).trace.any Event.isDecrypt = true) := by
  revert h
  unfold Cache.Get Cache.getBackend
  simp only [hk]
  repeat' split
  all_goals intro h
  all_goals by_cases hkk : k = key
  all_goals simp_all [Precache.Store, Event.isDecrypt]

/-- Where a precache entry after a Put comes from: it was there before, or it is the
data argument of this Put, which succeeded. -/
theorem Cache.Put_entry_origin {σ : Type} (E : Bytes → Bytes → Bytes) (c : Cache σ) (s : σ)
    (rnd : Except Error Bytes) (key k : String) (data d : Bytes)
    (h : (c.Put E s rnd key data).cache.precache k = some d) :
    c.precache k = some d ∨ (key = k ∧ data = d ∧ (c.Put E s rnd key data).ret = .ok ()) := by
  revert h
  unfold Cache.Put Cache.putBackend
  repeat' split
  all_goals intro h
  all_goals by_cases hkk : k = key
  all_goals simp_all [Precache.Store]

/-- A Delete adds no precache entry. -/
theorem Cache.Delete_entry_origin {σ : Type} (c : Cache σ) (s : σ) (key k : String) (d : Bytes)
    (h : (c.Delete s key).cache.precache k = some d) : c.precache k = some d := by
  revert h
  unfold Cache.Delete
  dsimp only
  repeat' split
  all_goals intro h
  all_goals by_cases hkk : k = key
  all_goals simp_all [Precache.Delete]

/-- With a key configured, what a Get stores is the value it returns, and the payload it
decrypted is one block longer. -/
theorem Cache.Get_store_payload {σ : Type} (E : Bytes → Bytes → Bytes) (c : Cache σ) (s : σ)
    (key k : String) (encKey d : Bytes) (hk : c.encryptionKey = some encKey)
    (hst : Event.precacheStore k d ∈ (c.Get E s key).trace) :
    key = k ∧ (c.Get E s key).ret = .ok d ∧
    (c.Get E s key).trace.any Event.isDecrypt = true ∧
    (∀ k1 p, Event.backendPut k1 p ∉ (c.Get E s key).trace) ∧
    (∀ p, Event.decrypt p ∈ (c.Get E s key).trace → p.length = d.length + BlockSize) := by
  have hl := Cache.decrypt_length E c
  revert hst
  unfold Cache.Get Cache.getBackend
  simp only [hk]
  repeat' split
  all_goals intro hst
  all_goals simp at hst
  all_goals have h1 := hl _ _ (by assumption)
  all_goals simp_all [Event.isDecrypt]

/-- With a key configured, what a Put stores is its data argument, and the payload it
handed to the backend is one block longer. -/
theorem Cache.Put_store_payload {σ : Type} (E : Bytes → Bytes → Bytes) (c : Cache σ) (s : σ)
    (rnd : Except Error Bytes) (key k : String) (data encKey d : Bytes)
    (hk : c.encryptionKey = some encKey)
    (hst : Event.precacheStore k d ∈ (c.Put E s rnd key data).trace) :
    key = k ∧ data = d ∧ (c.Put E s rnd key data).ret = .ok () ∧
    (∀ k1 p, Event.backendPut k1 p ∈ (c.Put E s rnd key data).trace →
      p.length = d.length + BlockSize) ∧
    (∀ p, Event.decrypt p ∉ (c.Put E s rnd key data).trace) := by
  have hl := Cache.encrypt_length E c
  revert hst
  unfold Cache.Put Cache.putBackend
  simp only [hk]
  repeat' split
  all_goals intro hst
  all_goals simp at hst
  all_goals have h1 := hl _ _ _ (by assumption)
  all_goals simp_all

theorem Cache.step_encryptionKey {σ : Type} (E : Bytes → Bytes → Bytes) (c : Cache σ) (s : σ)
    (op : Op) : (c.step E s op).1.encryptionKey = c.encryptionKey := by
  cases op with
  | Get key => exact (Cache.Get_fields E c s key).2.1
  | Put key data rnd => exact (Cache.Put_fields E c s rnd key data).2.1
  | Delete key => exact (Cache.Delete_fields c s key).2.1

theorem Cache.step_entry_origin {σ : Type} (E : Bytes → Bytes → Bytes) (c : Cache σ) (s : σ)
    (op : Op) (k : String) (encKey d : Bytes) (hk : c.encryptionKey = some encKey)
    (h : (c.step E s op).1.precache k = some d) :
    c.precache k = some d ∨ (c.step E s op).2.2.plaintext k = some d := by
  cases op with
  | Get key =>
    rcases Cache.Get_entry_origin E c s key k encKey d hk h with h1 | ⟨h1, h2, h3⟩
    · exact Or.inl h1
    · right; subst h1; simp [Cache.step, Done.plaintext, h2, h3]
  | Put key data rnd =>
    rcases Cache.Put_entry_origin E c s rnd key k data d h with h1 | ⟨h1, h2, h3⟩
    · exact Or.inl h1
    · right; subst h1 h2; simp [Cache.step, Done.plaintext, h3]
  | Delete key => exact Or.inl (Cache.Delete_entry_origin c s key k d h)

theorem Cache.step_store_payload {σ : Type} (E : Bytes → Bytes → Bytes) (c : Cache σ) (s : σ)
    (op : Op) (encKey : Bytes) (k : String) (d : Bytes) (hk : c.encryptionKey = some encKey)
    (hst : Event.precacheStore k d ∈ (c.step E s op).2.2.trace) :
    (c.step E s op).2.2.plaintext k = some d ∧
    ∀ p, (c.step E s op).2.2.payload p → p.length = d.length + BlockSize := by
  cases op with
  | Get key =>
    obtain ⟨h1, h2, h2a, h3, h4⟩ := Cache.Get_store_payload E c s key k encKey d hk hst
    subst h1
    refine ⟨by simp [Cache.step, Done.plaintext, h2, h2a], ?_⟩
    rintro p (⟨k1, hp⟩ | hp)
    · exact absurd hp (h3 k1 p)
    · exact h4 p hp
  | Put key data rnd =>
    obtain ⟨h1, h2, h3, h4, h5⟩ := Cache.Put_store_payload E c s rnd key k data encKey d hk hst
    subst h1 h2
    refine ⟨by simp [Cache.step, Done.plaintext, h3], ?_⟩
    rintro p (⟨k1, hp⟩ | hp)
    · exact h4 k1 p hp
    · exact absurd hp (h5 p)
  | Delete key =>
    exfalso
    revert hst
    unfold Cache.step Cache.Delete
    dsimp only
    repeat' split
    all_goals simp

/-- Every completed call of a run is one call on a decorator with the same key. -/
theorem Cache.run_history_mem {σ : Type} (E : Bytes → Bytes → Bytes) (ops : List Op)
    (c : Cache σ) (s : σ) (dn : Done) (h : dn ∈ (Cache.run E c s ops).2.2) :
    ∃ (c1 : Cache σ) (s1 : σ) (op : Op),
      c1.encryptionKey = c.encryptionKey ∧ dn = (Cache.step E c1 s1 op).2.2 := by
  induction ops generalizing c s with
  | nil => simp [Cache.run] at h
  | cons op ops ih =>
    simp only [Cache.run, List.mem_cons] at h
    rcases h with h | h
    · exact ⟨c, s, op, rfl, h⟩
    · obtain ⟨c1, s1, op1, h1, h2⟩ := ih _ _ h
      exact ⟨c1, s1, op1, by rw [h1, Cache.step_encryptionKey], h2⟩

theorem Cache.run_entry_origin {σ : Type} (E : Bytes → Bytes → Bytes) (ops : List Op)
    (c : Cache σ) (s : σ) (k : String) (encKey d : Bytes) (hk : c.encryptionKey = some encKey)
    (h : (Cache.run E c s ops).1.precache k = some d) :
    c.precache k = some d ∨ ∃ dn ∈ (Cache.run E c s ops).2.2, dn.plaintext k = some d := by
  induction ops generalizing c s with
  | nil => exact Or.inl h
  | cons op ops ih =>
    simp only [Cache.run] at h ⊢
    rcases ih _ _ (by rw [Cache.step_encryptionKey, hk]) h with h1 | ⟨dn, hm, hd⟩
    · rcases Cache.step_entry_origin E c s op k encKey d hk h1 with h2 | h2
      · exact Or.inl h2
      · exact Or.inr ⟨_, List.mem_cons_self _ _, h2⟩
    · exact Or.inr ⟨dn, List.mem_cons_of_mem _ hm, hd⟩

/-- C8. Precache plaintext invariant: on a decorator with an encryption key configured,
starting from an empty precache, after every sequence of Get, Put and Delete calls every
precache entry of a key `k` is a plaintext of `k` seen by a completed call (the data of a
successful `Put(k, .)` or the value a successful `Get(k)` decrypted and returned); and whenever a call
stores into the precache, the value stored is that call's plaintext and every payload the
call handed to or received from the backend is one cipher block longer, so it is never
the value stored. -/
theorem Cache.run_precache_plaintext {σ : Type} (E : Bytes → Bytes → Bytes) (c : Cache σ)
    (s : σ) (ops : List Op) (encKey : Bytes)
    (hempty : ∀ k, c.precache k = none) (hk : c.encryptionKey = some encKey) :
    (∀ k d, (Cache.run E c s ops).1.precache k = some d →
      ∃ dn ∈ (Cache.run E c s ops).2.2, dn.plaintext k = some d) ∧
    (∀ dn ∈ (Cache.run E c s ops).2.2, ∀ k d, Event.precacheStore k d ∈ dn.trace →
      dn.plaintext k = some d ∧
      ∀ p, dn.payload p → p.length = d.length + BlockSize ∧ p ≠ d) := by
  constructor
  · intro k d h
    rcases Cache.run_entry_origin E ops c s k encKey d hk h with h1 | h1
    · rw [hempty k] at h1; cases h1
    · exact h1
  · intro dn hm k d hst
    obtain ⟨c1, s1, op, h1, rfl⟩ := Cache.run_history_mem E ops c s dn hm
    obtain ⟨h2, h3⟩ := Cache.step_store_payload E c1 s1 op encKey k d (by rw [h1, hk]) hst
    refine ⟨h2, fun p hp => ⟨h3 p hp, ?_⟩⟩
    intro heq
    have := h3 p hp
    rw [heq] at this
    simp [BlockSize] at this

/-- Witness for C8: encryption and precaching on over the in-memory store; after the
run the precache holds "test-data" under "test-key". -/
theorem Cache.run_precache_plaintext_witness :
    (∀ k, emptyMap k = none) ∧
    (Cache.run exampleE ⟨some memBackend, some exampleKey, true, emptyMap⟩ emptyMap
      exampleOps).1.precache "test-key" = some testData ∧
    (∀ k d, (Cache.run exampleE ⟨some memBackend, some exampleKey, true, emptyMap⟩ emptyMap
        exampleOps).1.precache k = some d →
      ∃ dn ∈ (Cache.run exampleE ⟨some memBackend, some exampleKey, true, emptyMap⟩ emptyMap
        exampleOps).2.2, dn.plaintext k = some d) :=
  ⟨fun _ => rfl, rfl,
    (Cache.run_precache_plaintext exampleE ⟨some memBackend, some exampleKey, true, emptyMap⟩
      emptyMap exampleOps exampleKey (fun _ => rfl) rfl).1⟩

/-! ## C9: the precache with precaching off -/

/-- With precaching off, Put and Delete leave the decorator as it was, and so does a
Get on a decorator with an encryption key. -/
theorem Cache.precaching_off_frame {σ : Type} (E : Bytes → Bytes → Bytes) (c : Cache σ) (s : σ)
    (rnd : Except Error Bytes) (k : String) (v : Bytes) (hu : c.usePrecaching = false) :
    (c.Put E s rnd k v).cache = c ∧ (c.Delete s k).cache = c ∧
    (c.encryptionKey ≠ none → (c.Get E s k).cache = c) := by
  refine ⟨?_, ?_, ?_⟩
  · unfold Cache.Put Cache.putBackend
    repeat' split
    all_goals simp_all
  · unfold Cache.Delete
    dsimp only
    repeat' split
    all_goals simp_all
  · intro hk
    unfold Cache.Get Cache.getBackend
    repeat' split
    all_goals simp_all

/-- C9 (failing input). With precaching off and no encryption key, a Get that succeeds
through the backend stores its result in the precache: the entry of "test-key", absent
before the call, is present after it, and the call's trace has the store. -/
theorem Cache.Get_stores_with_precaching_off :
    (Cache.mk (some memBackend) none false emptyMap).precache "test-key" = none ∧
    (Cache.Get exampleE ⟨some memBackend, none, false, emptyMap⟩ examplePrecache
      "test-key").ret = .ok testData ∧
    (Cache.Get exampleE ⟨some memBackend, none, false, emptyMap⟩ examplePrecache
      "test-key").cache.precache "test-key" = some testData ∧
    (Cache.Get exampleE ⟨some memBackend, none, false, emptyMap⟩ examplePrecache
      "test-key").trace = [.backendGet "test-key", .precacheStore "test-key" testData] :=
  ⟨rfl, rfl, rfl, rfl⟩

/-! ## C10: what Put hands to the backend -/

theorem Cache.putBackend_puts {σ : Type} (c : Cache σ) (b : Backend σ) (s : σ) (k : String)
    (v p : Bytes) (tr : List Event) (hb : c.backend = some b) (htr : backendPuts tr = []) :
    backendPuts (c.putBackend s k v p tr).trace = [(k, p)] := by
  have happ : ∀ (t1 t2 : List Event), backendPuts (t1 ++ t2) = backendPuts t1 ++ backendPuts t2 := by
    intro t1 t2
    induction t1 with
    | nil => rfl
    | cons e t1 ih => cases e <;> simp [backendPuts, ih]
  unfold Cache.putBackend
  simp only [hb]
  repeat' split
  all_goals simp [happ, htr, backendPuts]

/-- C10. Encryption opacity: with a (valid) encryption key configured, for every value
`v` and 16-byte IV the one payload Put hands to the backend, under the same key, is
`IV || ciphertext`: its length is `len(v) + 16`, its first 16 bytes are the IV, it is
never equal to `v`, and a Put of the same `v` that draws a different IV hands over a
different payload.  With no key configured the payload handed over is `v` itself. -/
theorem Cache.Put_payload {σ : Type} (E : Bytes → Bytes → Bytes) (c c0 : Cache σ)
    (b b0 : Backend σ) (s s1 s0 : σ) (rnd : Except Error Bytes) (k : String)
    (key iv iv1 v : Bytes)
    (hb : c.backend = some b) (hk : c.encryptionKey = some key) (hv : validKey key)
    (hiv : iv.length = BlockSize) (hiv1 : iv1.length = BlockSize)
    (hb0 : c0.backend = some b0) (hk0 : c0.encryptionKey = none) :
    backendPuts (c.Put E s (.ok iv) k v).trace = [(k, iv ++ cfbEncrypt E key iv v)] ∧
    (iv ++ cfbEncrypt E key iv v).length = v.length + 16 ∧
    (iv ++ cfbEncrypt E key iv v).take 16 = iv ∧
    iv ++ cfbEncrypt E key iv v ≠ v ∧
    backendPuts (c.Put E s1 (.ok iv1) k v).trace = [(k, iv1 ++ cfbEncrypt E key iv1 v)] ∧
    (iv ≠ iv1 → iv ++ cfbEncrypt E key iv v ≠ iv1 ++ cfbEncrypt E key iv1 v) ∧
    backendPuts (c0.Put E s0 rnd k v).trace = [(k, v)] := by
  have hlen : (iv ++ cfbEncrypt E key iv v).length = v.length + 16 := by
    simp [cfbEncrypt, cfb.XORKeyStream_length, hiv, BlockSize]
    omega
  have hiv16 : iv.length = 16 := hiv
  have hiv116 : iv1.length = 16 := hiv1
  refine ⟨?_, hlen, ?_, ?_, ?_, ?_, ?_⟩
  · rw [Cache.Put_enc E c s key iv k v hk hv hiv]
    exact Cache.putBackend_puts c b s k v _ _ hb rfl
  · rw [← hiv16]; simp
  · intro h
    rw [h] at hlen
    omega
  · rw [Cache.Put_enc E c s1 key iv1 k v hk hv hiv1]
    exact Cache.putBackend_puts c b s1 k v _ _ hb rfl
  · intro hne h
    apply hne
    have h1 := congrArg (List.take 16) h
    rw [← hiv16] at h1
    simp at h1
    rw [hiv16, ← hiv116] at h1
    simpa using h1
  · rw [Cache.Put_plain E c0 s0 rnd k v hk0]
    exact Cache.putBackend_puts c0 b0 s0 k v _ _ hb0 rfl

/-- Witness for C10: two Puts of "test-data" under one 32-byte key with two IVs. -/
theorem Cache.Put_payload_witness :
    validKey exampleKey ∧ exampleIV.length = BlockSize ∧ exampleIV2.length = BlockSize ∧
    exampleIV ≠ exampleIV2 ∧
    backendPuts (Cache.Put exampleE ⟨some memBackend, some exampleKey, false, emptyMap⟩ emptyMap
      (.ok exampleIV) "test-key" testData).trace
      = [("test-key", exampleIV ++ cfbEncrypt exampleE exampleKey exampleIV testData)] ∧
    exampleIV ++ cfbEncrypt exampleE exampleKey exampleIV testData
      ≠ exampleIV2 ++ cfbEncrypt exampleE exampleKey exampleIV2 testData ∧
    backendPuts (Cache.Put exampleE ⟨some memBackend, none, false, emptyMap⟩ emptyMap
      (.ok exampleIV) "test-key" testData).trace = [("test-key", testData)] :=
  have h := Cache.Put_payload exampleE ⟨some memBackend, some exampleKey, false, emptyMap⟩
    ⟨some memBackend, none, false, emptyMap⟩ memBackend memBackend emptyMap emptyMap emptyMap
    (.ok exampleIV) "test-key" exampleKey exampleIV exampleIV2 testData rfl rfl (by decide)
    (by decide) (by decide) rfl rfl
  ⟨by decide, by decide, by decide, by decide, h.1, h.2.2.2.2.2.1 (by decide), h.2.2.2.2.2.2⟩

/-! ## C16: Get fills the precache on a miss -/

/-- C16. Get fills the precache on a miss: with precaching on, with or without
encryption, if `Get(k)` misses the precache and succeeds with `v` through the backend,
then the precache maps `k` to `v` afterwards and the next `Get(k)`, in every backend
state, returns `(v, nil)` with the precache load as its only call. -/
theorem Cache.Get_fills_precache {σ : Type} (E : Bytes → Bytes → Bytes) (c : Cache σ) (s s1 : σ)
    (k : String) (v : Bytes)
    (hu : c.usePrecaching = true) (hmiss : c.precache k = none)
    (hget : (c.Get E s k).ret = .ok v) :
    Event.backendGet k ∈ (c.Get E s k).trace ∧
    (c.Get E s k).cache.precache k = some v ∧
    Cache.Get E (c.Get E s k).cache s1 k =
      ⟨.ok v, (c.Get E s k).cache, s1, [.precacheLoad k]⟩ := by
  have h1 : Event.backendGet k ∈ (c.Get E s k).trace ∧
      (c.Get E s k).cache.precache k = some v := by
    revert hget
    rw [Cache.Get_miss E c s k (Or.inr hmiss)]
    unfold Cache.getBackend
    repeat' split
    all_goals simp_all [Precache.Store]
  refine ⟨h1.1, h1.2, ?_⟩
  exact Cache.Get_hit E _ s1 k v (by rw [(Cache.Get_fields E c s k).2.2, hu]) h1.2

/-- Witness for C16: precaching on, no key; the in-memory store holds "test-data"
under "test-key" and the precache is empty. -/
theorem Cache.Get_fills_precache_witness :
    (Cache.Get exampleE ⟨some memBackend, none, true, emptyMap⟩ examplePrecache
      "test-key").ret = .ok testData ∧
    (Cache.Get exampleE ⟨some memBackend, none, true, emptyMap⟩ examplePrecache
      "test-key").cache.precache "test-key" = some testData :=
  ⟨rfl,
    (Cache.Get_fills_precache exampleE ⟨some memBackend, none, true, emptyMap⟩ examplePrecache
      emptyMap "test-key" testData rfl rfl rfl).2.1⟩

/-! ## C17: no integrity check beyond the length -/

/-- C17. No integrity check beyond length: with a valid key configured, on a precache
miss with the backend returning a payload `p`, whatever its bytes: if `len(p) >= 16`
then decrypt succeeds and Get returns, with a nil error, the CFB decryption of `p[16:]`
under IV `p[:16]`, of exactly `len(p) - 16` bytes; Get returns an error iff
`len(p) < 16`; and it never panics. -/
theorem Cache.Get_no_integrity_check {σ : Type} (E : Bytes → Bytes → Bytes) (c : Cache σ)
    (b : Backend σ) (s : σ) (k : String) (key p : Bytes)
    (hk : c.encryptionKey = some key) (hv : validKey key)
    (hmiss : c.usePrecaching = false ∨ c.precache k = none)
    (hb : c.backend = some b) (hg : (b.Get s k).1 = .ok p) :
    (BlockSize ≤ p.length →
      c.decrypt E p = .ok (cfbDecrypt E key (p.take BlockSize) (p.drop BlockSize)) ∧
      (c.Get E s k).ret = .ok (cfbDecrypt E key (p.take BlockSize) (p.drop BlockSize)) ∧
      (cfbDecrypt E key (p.take BlockSize) (p.drop BlockSize)).length = p.length - 16) ∧
    ((∃ e, (c.Get E s k).ret = .err e) ↔ p.length < BlockSize) ∧
    (∀ m, (c.Get E s k).ret ≠ .panic m) := by
  rcases hg1 : b.Get s k with ⟨r, s1⟩
  rw [hg1] at hg
  simp only at hg
  subst hg
  by_cases hp : p.length < BlockSize
  · have hd := Cache.decrypt_short E c key p hk hv hp
    rw [Cache.Get_miss E c s k hmiss, Cache.getBackend_enc_err E c b s s1 k _ p key _ hb hg1 hk hd]
    refine ⟨fun h => absurd hp (by omega), ?_, by simp⟩
    simp [hp]
  · have hle : BlockSize ≤ p.length := by omega
    have hd := Cache.decrypt_ok E c key p hk hv hle
    have hret : (c.Get E s k).ret
        = .ok (cfbDecrypt E key (p.take BlockSize) (p.drop BlockSize)) := by
      rw [Cache.Get_miss E c s k hmiss,
        Cache.getBackend_enc_ok E c b s s1 k _ p key _ hb hg1 hk hd]
      cases c.usePrecaching <;> simp
    refine ⟨fun _ => ⟨hd, hret, ?_⟩, ?_, ?_⟩
    · simp [cfbDecrypt, cfb.XORKeyStream_length, BlockSize]
    · rw [hret]; simp [hp]
    · rw [hret]; simp

/-- Witness for C17: a 20-byte payload of arbitrary bytes decrypts to four bytes. -/
theorem Cache.Get_no_integrity_check_witness :
    validKey exampleKey ∧
    (memBackend.Get (fun _ => some (List.range 20)) "test-key").1 = .ok (List.range 20) ∧
    ((∃ e, (Cache.Get exampleE ⟨some memBackend, some exampleKey, false, emptyMap⟩
      (fun _ => some (List.range 20)) "test-key").ret = .err e)
        ↔ (List.range 20).length < BlockSize) :=
  ⟨by decide, rfl,
    (Cache.Get_no_integrity_check exampleE ⟨some memBackend, some exampleKey, false, emptyMap⟩
      memBackend (fun _ => some (List.range 20)) "test-key" exampleKey (List.range 20)
      rfl (by decide) (Or.inl rfl) rfl rfl).2.1⟩

/-! ## C20: with precaching off the precache is unobservable -/

/-- With precaching off, one call on two decorators that differ only in their precache
returns the same result, leaves the same backend state and makes the same calls; the
decorators after the call again differ only in their precache. -/
theorem Cache.step_precaching_off {σ : Type} (E : Bytes → Bytes → Bytes) (c1 c2 : Cache σ)
    (s : σ) (op : Op)
    (hu1 : c1.usePrecaching = false) (hu2 : c2.usePrecaching = false)
    (hb : c1.backend = c2.backend) (hk : c1.encryptionKey = c2.encryptionKey) :
    (c1.step E s op).2 = (c2.step E s op).2 := by
  obtain ⟨b1, k1, u1, p1⟩ := c1
  obtain ⟨b2, k2, u2, p2⟩ := c2
  simp only at hu1 hu2 hb hk
  subst hu1 hu2 hb hk
  cases op with
  | Get key =>
    simp only [Cache.step, Cache.Get, Cache.getBackend, Cache.decrypt]
    repeat' split
    all_goals simp_all
  | Put key data rnd =>
    simp only [Cache.step, Cache.Put, Cache.putBackend, Cache.encrypt]
    repeat' split
    all_goals simp_all
  | Delete key =>
    simp only [Cache.step, Cache.Delete]
    repeat' split
    all_goals simp_all

theorem Cache.step_fields {σ : Type} (E : Bytes → Bytes → Bytes) (c : Cache σ) (s : σ)
    (op : Op) :
    (c.step E s op).1.backend = c.backend ∧
    (c.step E s op).1.encryptionKey = c.encryptionKey ∧
    (c.step E s op).1.usePrecaching = c.usePrecaching := by
  cases op with
  | Get key => exact Cache.Get_fields E c s key
  | Put key data rnd => exact Cache.Put_fields E c s rnd key data
  | Delete key => exact Cache.Delete_fields c s key

/-- C20. Disabling precaching is observationally complete: for two decorators with
precaching off that have the same encryption key and the same backend but arbitrary
precache contents, every sequence of Get, Put and Delete calls gives, call by call, the
same results and the same backend calls (the completed calls are equal, traces
included) and the same final backend state; and a Get on such a decorator never loads
from the precache and always calls the backend's Get. -/
theorem Cache.precaching_off_observational {σ : Type} (E : Bytes → Bytes → Bytes)
    (c1 c2 : Cache σ) (b : Backend σ) (s : σ) (ops : List Op) (k : String)
    (hu1 : c1.usePrecaching = false) (hu2 : c2.usePrecaching = false)
    (hb1 : c1.backend = some b) (hb2 : c2.backend = some b)
    (hk : c1.encryptionKey = c2.encryptionKey) :
    (Cache.run E c1 s ops).2 = (Cache.run E c2 s ops).2 ∧
    (c1.Get E s k).ret = (c2.Get E s k).ret ∧
    (c1.Get E s k).st = (c2.Get E s k).st ∧
    (c1.Get E s k).trace = (c2.Get E s k).trace ∧
    Event.backendGet k ∈ (c1.Get E s k).trace ∧
    Event.precacheLoad k ∉ (c1.Get E s k).trace := by
  have hrun : ∀ (ops : List Op) (c1 c2 : Cache σ) (s : σ),
      c1.usePrecaching = false → c2.usePrecaching = false → c1.backend = c2.backend →
      c1.encryptionKey = c2.encryptionKey →
      (Cache.run E c1 s ops).2 = (Cache.run E c2 s ops).2 := by
    intro ops
    induction ops with
    | nil => intro c1 c2 s _ _ _ _; rfl
    | cons op ops ih =>
      intro c1 c2 s h1 h2 h3 h4
      have hs := Cache.step_precaching_off E c1 c2 s op h1 h2 h3 h4
      have f1 := Cache.step_fields E c1 s op
      have f2 := Cache.step_fields E c2 s op
      have hst : (c1.step E s op).2.1 = (c2.step E s op).2.1 := by rw [hs]
      have hdn : (c1.step E s op).2.2 = (c2.step E s op).2.2 := by rw [hs]
      have := ih (c1.step E s op).1 (c2.step E s op).1 (c1.step E s op).2.1
        (by rw [f1.2.2, h1]) (by rw [f2.2.2, h2]) (by rw [f1.1, f2.1, h3])
        (by rw [f1.2.1, f2.2.1, h4])
      simp only [Cache.run]
      rw [hdn, ← hst, this]
  have hget := Cache.step_precaching_off E c1 c2 s (.Get k) hu1 hu2 (by rw [hb1, hb2]) hk
  simp only [Cache.step, Prod.mk.injEq, Done.mk.injEq, Ret.data.injEq, true_and] at hget
  refine ⟨hrun ops c1 c2 s hu1 hu2 (by rw [hb1, hb2]) hk, hget.2.1, hget.1, hget.2.2, ?_, ?_⟩
  · rw [Cache.Get_miss E c1 s k (Or.inl hu1)]
    unfold Cache.getBackend
    simp only [hb1, hu1]
    repeat' split
    all_goals simp_all
  · rw [Cache.Get_miss E c1 s k (Or.inl hu1)]
    unfold Cache.getBackend
    simp only [hb1, hu1]
    repeat' split
    all_goals simp_all

/-! ## base64 -/

theorem base64.decodeMap_encode :
    ∀ i, i < 64 → base64.decodeMap (base64.encode i) = some i := by
  decide

theorem base64.decodeMap_pad : base64.decodeMap 61 = none := by decide

theorem base64.encode_isStdChar : ∀ i, i < 64 → base64.isStdChar (base64.encode i) := by
  decide

theorem base64.decodeLoop_four (total : Nat) (i0 i1 i2 i3 : Nat) (rest : Bytes) (si : Nat)
    (h0 : i0 < 64) (h1 : i1 < 64) (h2 : i2 < 64) (h3 : i3 < 64) :
    base64.decodeLoop total
      (base64.encode i0 :: base64.encode i1 :: base64.encode i2 :: base64.encode i3 :: rest)
      si 0 [] =
    match base64.decodeLoop total rest (si + 1 + 1 + 1 + 1) 0 [] with
    | .ok tl => .ok (base64.quantum [i0, i1, i2, i3] 4 ++ tl)
    | .error e => .error e := by
  simp [base64.decodeLoop, base64.decodeMap_encode, h0, h1, h2, h3]

/-- Decoding an encoding gives the bytes back, from every input offset. -/
theorem base64.decodeLoop_Encode (total : Nat) :
    ∀ (v : Bytes) (si : Nat), (∀ b ∈ v, b < 256) →
      base64.decodeLoop total (base64.Encode v) si 0 [] = .ok v
  | [], si, _ => by simp [base64.Encode, base64.decodeLoop]
  | [a], si, h => by
    have ha : a < 256 := h a (by simp)
    have e0 : ((a <<< 16) >>> 18) % 64 < 64 := Nat.mod_lt _ (by norm_num)
    have e1 : ((a <<< 16) >>> 12) % 64 < 64 := Nat.mod_lt _ (by norm_num)
    simp [base64.Encode, base64.decodeLoop, base64.decodeMap_encode, e0, e1,
      base64.decodeMap_pad, base64.decodePadding, base64.decodeTrailing, base64.quantum,
      base64.isNewline, base64.StdPadding]
    simp only [Nat.shiftLeft_eq, Nat.shiftRight_eq_div_pow, Nat.reducePow] at *
    omega
  | [a, b], si, h => by
    have ha : a < 256 := h a (by simp)
    have hb : b < 256 := h b (by simp)
    have e0 : ((a <<< 16 + b <<< 8) >>> 18) % 64 < 64 := Nat.mod_lt _ (by norm_num)
    have e1 : ((a <<< 16 + b <<< 8) >>> 12) % 64 < 64 := Nat.mod_lt _ (by norm_num)
    have e2 : ((a <<< 16 + b <<< 8) >>> 6) % 64 < 64 := Nat.mod_lt _ (by norm_num)
    simp [base64.Encode, base64.decodeLoop, base64.decodeMap_encode, e0, e1, e2,
      base64.decodeMap_pad, base64.decodePadding, base64.decodeTrailing, base64.quantum,
      base64.isNewline, base64.StdPadding]
    simp only [Nat.shiftLeft_eq, Nat.shiftRight_eq_div_pow, Nat.reducePow] at *
    omega
  | a :: b :: c :: rest, si, h => by
    have ha : a < 256 := h a (by simp)
    have hb : b < 256 := h b (by simp)
    have hc : c < 256 := h c (by simp)
    have ih := base64.decodeLoop_Encode total rest (si + 1 + 1 + 1 + 1)
      (fun x hx => h x (by simp [hx]))
    rw [base64.Encode]
    simp only [List.cons_append, List.nil_append]
    rw [base64.decodeLoop_four total _ _ _ _ _ si (Nat.mod_lt _ (by norm_num))
      (Nat.mod_lt _ (by norm_num)) (Nat.mod_lt _ (by norm_num)) (Nat.mod_lt _ (by norm_num)), ih]
    simp [base64.quantum]
    simp only [Nat.shiftLeft_eq, Nat.shiftRight_eq_div_pow, Nat.reducePow] at *
    omega

theorem base64.Decode_Encode (v : Bytes) (h : ∀ b ∈ v, b < 256) :
    base64.Decode (base64.Encode v) = .ok v :=
  base64.decodeLoop_Encode _ v 0 h

theorem base64.Encode_length : ∀ v : Bytes, (base64.Encode v).length = 4 * ((v.length + 2) / 3)
  | [] => by simp [base64.Encode]
  | [_] => by simp [base64.Encode]
  | [_, _] => by simp [base64.Encode]
  | _ :: _ :: _ :: rest => by
    have ih := base64.Encode_length rest
    simp [base64.Encode, ih]
    omega

theorem base64.Encode_isStdChar : ∀ v : Bytes, ∀ c ∈ base64.Encode v, base64.isStdChar c
  | [], c, h => by simp [base64.Encode] at h
  | [a], c, h => by
    simp only [base64.Encode, List.mem_cons, List.mem_singleton, List.not_mem_nil, or_false] at h
    rcases h with h | h | h | h
    · rw [h]; exact base64.encode_isStdChar _ (Nat.mod_lt _ (by norm_num))
    · rw [h]; exact base64.encode_isStdChar _ (Nat.mod_lt _ (by norm_num))
    · rw [h]; decide
    · rw [h]; decide
  | [a, b], c, h => by
    simp only [base64.Encode, List.mem_cons, List.mem_singleton, List.not_mem_nil, or_false] at h
    rcases h with h | h | h | h
    · rw [h]; exact base64.encode_isStdChar _ (Nat.mod_lt _ (by norm_num))
    · rw [h]; exact base64.encode_isStdChar _ (Nat.mod_lt _ (by norm_num))
    · rw [h]; exact base64.encode_isStdChar _ (Nat.mod_lt _ (by norm_num))
    · rw [h]; decide
  | a :: b :: d :: rest, c, h => by
    have ih := base64.Encode_isStdChar rest c
    simp only [base64.Encode, List.mem_append, List.mem_cons, List.mem_singleton,
      List.not_mem_nil, or_false] at h
    rcases h with (h | h | h | h) | h
    · rw [h]; exact base64.encode_isStdChar _ (Nat.mod_lt _ (by norm_num))
    · rw [h]; exact base64.encode_isStdChar _ (Nat.mod_lt _ (by norm_num))
    · rw [h]; exact base64.encode_isStdChar _ (Nat.mod_lt _ (by norm_num))
    · rw [h]; exact base64.encode_isStdChar _ (Nat.mod_lt _ (by norm_num))
    · exact ih h

theorem base64.mem_dropWhile (c : Nat) :
    ∀ l : Bytes, c ∈ l → base64.isNewline c = false → c ∈ l.dropWhile base64.isNewline
  | [], h, _ => by simp at h
  | x :: l, h, hc => by
    by_cases hx : base64.isNewline x = true
    · have hne : c ≠ x := by
        intro heq; rw [heq, hx] at hc; cases hc
      have hl : c ∈ l := by
        rcases List.mem_cons.mp h with h1 | h1
        · exact absurd h1 hne
        · exact h1
      simp only [List.dropWhile, hx]
      exact base64.mem_dropWhile c l hl hc
    · have hx1 : base64.isNewline x = false := by simpa using hx
      simp only [List.dropWhile, hx1]
      exact h

theorem base64.decodeTrailing_foreign (j : Nat) (dbuf : List Nat) (rest : Bytes) (si c : Nat)
    (hc : c ∈ rest) (hn : base64.isNewline c = false) :
    ∃ e, base64.decodeTrailing j dbuf rest si = .error e := by
  have hm := base64.mem_dropWhile c rest hc hn
  have hne : rest.dropWhile base64.isNewline ≠ [] := List.ne_nil_of_mem hm
  simp [base64.decodeTrailing, hne]

theorem base64.decodePadding_foreign (total j : Nat) (dbuf : List Nat) (rest : Bytes)
    (si c : Nat) (hc : c ∈ rest) (hf : base64.isForeign c) :
    ∃ e, base64.decodePadding total j dbuf rest si = .error e := by
  obtain ⟨_, hn, hp⟩ := hf
  unfold base64.decodePadding
  by_cases h1 : j < 2
  · simp [h1]
  · by_cases h2 : j = 2
    · have hm := base64.mem_dropWhile c rest hc hn
      simp only [h1, h2, if_false, if_true]
      cases hd : rest.dropWhile base64.isNewline with
      | nil => rw [hd] at hm; simp at hm
      | cons x rest1 =>
        rw [hd] at hm
        by_cases hx : x = base64.StdPadding
        · have hc1 : c ∈ rest1 := by
            rcases List.mem_cons.mp hm with h3 | h3
            · exact absurd (h3.trans hx) hp
            · exact h3
          simp only [hx, ne_eq, not_true_eq_false, if_false]
          exact base64.decodeTrailing_foreign _ dbuf rest1 _ c hc1 hn
        · simp [hx]
    · simp only [h1, h2, if_false]
      exact base64.decodeTrailing_foreign j dbuf rest si c hc hn

/-- An input with a foreign byte is rejected, from every decoder state. -/
theorem base64.decodeLoop_foreign (total c : Nat) (hf : base64.isForeign c) :
    ∀ (src : Bytes), c ∈ src → ∀ (si j : Nat) (dbuf : List Nat),
      ∃ e, base64.decodeLoop total src si j dbuf = .error e
  | [], h, _, _, _ => by simp at h
  | x :: rest, h, si, j, dbuf => by
    by_cases hx : c = x
    · subst hx
      obtain ⟨h1, h2, h3⟩ := hf
      simp [base64.decodeLoop, h1, h2, h3]
    · have hr : c ∈ rest := by
        rcases List.mem_cons.mp h with h1 | h1
        · exact absurd h1 hx
        · exact h1
      have ih := base64.decodeLoop_foreign total c hf rest hr
      unfold base64.decodeLoop
      cases hm : base64.decodeMap x with
      | some out =>
        by_cases hj : j = 3
        · obtain ⟨e, he⟩ := ih (si + 1) 0 []
          simp [hj, he]
        · simp only [hj, if_false]
          exact ih _ _ _
      | none =>
        by_cases hn : base64.isNewline x = true
        · simp only [hn, if_true]
          exact ih _ _ _
        · by_cases hp : x = base64.StdPadding
          · simp only [hn, hp, ne_eq, not_true_eq_false, if_false]
            exact base64.decodePadding_foreign total j dbuf rest _ c hr hf
          · simp [hn, hp]

/-! ## C11: SQL payload safety -/

/-- C11. SQL payload safety: for every byte sequence `v` (every entry a byte),
`decode(encode(v)) = (v, nil)` in the adapter; so, over a dialect driver that accepts the
write and returns what it was given, `Put(k, v)` succeeds and the following `Get(k)`
returns exactly `(v, nil)`. -/
theorem sql.Cache.encode_decode_roundtrip {σ : Type} (m : sql.Cache σ) (d : sql.Driver σ) (s : σ)
    (k : String) (v : Bytes)
    (hv : ∀ b ∈ v, b < 256)
    (hd : m.driver = some d)
    (hacc : ∀ p, (d.impl.Put s k p).1 = none)
    (hf : d.impl.Faithful) :
    m.decode (m.encode v) = .ok v ∧
    (m.Put s k v).ret = .ok () ∧
    (m.Get (m.Put s k v).st k).ret = .ok v := by
  have hdec : m.decode (m.encode v) = .ok v := by
    simp [sql.Cache.decode, sql.Cache.encode, base64.Decode_Encode v hv]
  have h1 := hacc (m.encode v)
  have h2 := hf s k (m.encode v) h1
  refine ⟨hdec, ?_, ?_⟩
  · simp [sql.Cache.Put, hd, h1, Result.ofError]
  · rcases hg : d.impl.Get (d.impl.Put s k (m.encode v)).2 k with ⟨r, s2⟩
    rw [hg] at h2
    simp only at h2
    subst h2
    simp [sql.Cache.Put, sql.Cache.Get, hd, hg, hdec]

/-- Witness for C11: bytes with a NUL, a byte that is not valid UTF-8 and a length that
is not a multiple of three. -/
theorem sql.Cache.encode_decode_roundtrip_witness :
    (∀ b ∈ [0, 255, 116, 0], b < 256) ∧
    (exampleAdapter.Get (exampleAdapter.Put emptyMap "test-key" [0, 255, 116, 0]).st
      "test-key").ret = .ok [0, 255, 116, 0] :=
  ⟨by decide,
    (sql.Cache.encode_decode_roundtrip exampleAdapter ⟨.MySQL, memBackend⟩ emptyMap "test-key"
      [0, 255, 116, 0] (by decide) rfl (fun _ => rfl) memBackend_faithful).2.2⟩

/-! ## C12: the adapter's Get surfaces every failure -/

/-- C12. The adapter's Get surfaces every failure: if the dialect driver's Get returns
an error `e`, Get returns `(nil, e)` and does not decode; if the driver succeeds with
text the base64 decoder rejects with `e` (as it does every text holding a byte that is
not of the alphabet, "=", or a newline), Get returns `(nil, e)`; otherwise it returns
the decoded bytes and nil. -/
theorem sql.Cache.Get_surfaces {σ : Type} (m : sql.Cache σ) (d : sql.Driver σ) (s : σ)
    (k : String) (hd : m.driver = some d) :
    (∀ e, (d.impl.Get s k).1 = .error e →
      (m.Get s k).ret = .err e ∧ ∀ t, sql.Event.decode t ∉ (m.Get s k).trace) ∧
    (∀ t e, (d.impl.Get s k).1 = .ok t → base64.Decode t = .error e →
      (m.Get s k).ret = .err e) ∧
    (∀ t c, (d.impl.Get s k).1 = .ok t → c ∈ t → base64.isForeign c →
      ∃ e, (m.Get s k).ret = .err e) ∧
    (∀ t v, (d.impl.Get s k).1 = .ok t → base64.Decode t = .ok v →
      (m.Get s k).ret = .ok v) := by
  rcases hg : d.impl.Get s k with ⟨r, s1⟩
  have herr : ∀ t e, r = .ok t → base64.Decode t = .error e → (m.Get s k).ret = .err e := by
    intro t e h1 h2
    subst h1
    simp [sql.Cache.Get, hd, hg, sql.Cache.decode, h2]
  refine ⟨?_, herr, ?_, ?_⟩
  · intro e h1
    simp only at h1
    subst h1
    simp [sql.Cache.Get, hd, hg]
  · intro t c h1 hc hf
    obtain ⟨e, he⟩ := base64.decodeLoop_foreign t.length c hf t hc 0 0 []
    exact ⟨e, herr t e h1 he⟩
  · intro t v h1 h2
    simp only at h1
    subst h1
    simp [sql.Cache.Get, hd, hg, sql.Cache.decode, h2]

/-- Witness for C12: the empty store gives the cache miss; "dGVz" cut to three
characters and "dG?z" are rejected; "dGVzdC1kYXRh" decodes to "test-data". -/
theorem sql.Cache.Get_surfaces_witness :
    (exampleAdapter.Get emptyMap "test-key").ret = .err .ErrCacheMiss ∧
    (exampleAdapter.Get (fun _ => some [100, 71, 86]) "test-key").ret
      = .err (.CorruptInputError 0) ∧
    (∃ e, (exampleAdapter.Get (fun _ => some [100, 71, 63, 122]) "test-key").ret = .err e) ∧
    (exampleAdapter.Get (fun _ => some testDataBase64) "test-key").ret = .ok testData :=
  ⟨((sql.Cache.Get_surfaces exampleAdapter ⟨.MySQL, memBackend⟩ emptyMap "test-key" rfl).1
      .ErrCacheMiss rfl).1,
    (sql.Cache.Get_surfaces exampleAdapter ⟨.MySQL, memBackend⟩ (fun _ => some [100, 71, 86])
      "test-key" rfl).2.1 [100, 71, 86] (.CorruptInputError 0) rfl rfl,
    (sql.Cache.Get_surfaces exampleAdapter ⟨.MySQL, memBackend⟩
      (fun _ => some [100, 71, 63, 122]) "test-key" rfl).2.2.1 [100, 71, 63, 122] 63 rfl
      (by decide) ⟨by decide, by decide, by decide⟩,
    (sql.Cache.Get_surfaces exampleAdapter ⟨.MySQL, memBackend⟩ (fun _ => some testDataBase64)
      "test-key" rfl).2.2.2 testDataBase64 testData rfl rfl⟩

/-! ## C18: dialect dispatch -/

theorem sql.driverString_inj (t u : String) : "Driver: " ++ t = "Driver: " ++ u ↔ t = u := by
  constructor
  · intro h
    have h1 := congrArg String.data h
    simp only [String.data_append, List.append_cancel_left_eq] at h1
    exact String.ext h1
  · rintro rfl
    rfl

/-- C18. Dialect dispatch: `NewCache` returns a MySQL adapter exactly when the
connection's driver type is `*mysql.MySQLDriver`, a PostgreSQL adapter exactly when it is
`*pq.Driver`, and for every other driver type a nil adapter with the error
"Unsupported driver"; an adapter it returns always has a dialect driver. -/
theorem sql.NewCache_dispatch {σ : Type} (impl : sql.Dialect → DB → Backend σ) (db : DB) :
    sql.NewCache impl db =
      (if db.driverType = "*mysql.MySQLDriver" then .ok ⟨some ⟨.MySQL, impl .MySQL db⟩⟩
       else if db.driverType = "*pq.Driver" then .ok ⟨some ⟨.PostgreSQL, impl .PostgreSQL db⟩⟩
       else .err (.New "Unsupported driver")) ∧
    (db.driverType = "*mysql.MySQLDriver" ↔
      ∃ m, sql.NewCache impl db = .ok m ∧ m.driver.map (fun d => d.dialect) = some .MySQL) ∧
    (db.driverType = "*pq.Driver" ↔
      ∃ m, sql.NewCache impl db = .ok m ∧
        m.driver.map (fun d => d.dialect) = some .PostgreSQL) ∧
    (∀ m, sql.NewCache impl db = .ok m → m.driver ≠ none) := by
  have e1 : "Driver: " ++ db.driverType = "Driver: *mysql.MySQLDriver"
      ↔ db.driverType = "*mysql.MySQLDriver" :=
    sql.driverString_inj db.driverType "*mysql.MySQLDriver"
  have e2 : "Driver: " ++ db.driverType = "Driver: *pq.Driver"
      ↔ db.driverType = "*pq.Driver" :=
    sql.driverString_inj db.driverType "*pq.Driver"
  have hne : ("*mysql.MySQLDriver" : String) ≠ "*pq.Driver" := by decide
  unfold sql.NewCache
  simp only [e1, e2]
  by_cases h1 : db.driverType = "*mysql.MySQLDriver"
  · have h2 : db.driverType ≠ "*pq.Driver" := by rw [h1]; exact hne
    simp [h1, hne]
  · by_cases h2 : db.driverType = "*pq.Driver"
    · simp [h2, hne.symm]
    · simp [h1, h2]

/-- Witness for C18: a MySQL connection gets the MySQL dialect, an SQLite connection is
refused. -/
theorem sql.NewCache_dispatch_witness :
    (∃ m, sql.NewCache (fun _ _ => memBackend) ⟨"*mysql.MySQLDriver"⟩ = .ok m ∧
      m.driver.map (fun d => d.dialect) = some .MySQL) ∧
    sql.NewCache (fun _ _ => memBackend) ⟨"*sqlite3.SQLiteDriver"⟩
      = .err (.New "Unsupported driver") :=
  ⟨(sql.NewCache_dispatch (fun _ _ => memBackend) ⟨"*mysql.MySQLDriver"⟩).2.1.mp rfl,
    (sql.NewCache_dispatch (fun _ _ => memBackend) ⟨"*sqlite3.SQLiteDriver"⟩).1.trans rfl⟩

/-! ## C19: what the SQL adapter persists -/

/-- C19. What the SQL adapter persists is text-safe: for every payload `v`, Put encodes
`v` and hands the dialect driver, under the same key, the padded standard base64 encoding
of `v`: `4 * ceil(len(v) / 3)` bytes, each one of "A" to "Z", "a" to "z", "0" to "9",
"+", "/", "=" (so none is NUL and none is above 127); and Put returns the driver's Put
result unchanged. -/
theorem sql.Cache.Put_text_safe {σ : Type} (m : sql.Cache σ) (d : sql.Driver σ) (s : σ)
    (k : String) (v : Bytes) (hd : m.driver = some d) :
    (m.Put s k v).trace = [.encode v, .driverPut k (base64.Encode v)] ∧
    (m.Put s k v).ret = Result.ofError (d.impl.Put s k (base64.Encode v)).1 ∧
    (m.Put s k v).st = (d.impl.Put s k (base64.Encode v)).2 ∧
    (base64.Encode v).length = 4 * ((v.length + 2) / 3) ∧
    (∀ c ∈ base64.Encode v, base64.isStdChar c ∧ c ≠ 0 ∧ c < 128) := by
  refine ⟨by simp [sql.Cache.Put, hd, sql.Cache.encode], by simp [sql.Cache.Put, hd, sql.Cache.encode],
    by simp [sql.Cache.Put, hd, sql.Cache.encode], base64.Encode_length v, ?_⟩
  intro c hc
  have h := base64.Encode_isStdChar v c hc
  refine ⟨h, ?_, ?_⟩
  · unfold base64.isStdChar at h; omega
  · unfold base64.isStdChar at h; omega

/-- Witness for C19: "test-data" is handed over as "dGVzdC1kYXRh". -/
theorem sql.Cache.Put_text_safe_witness :
    base64.Encode testData = testDataBase64 ∧
    (exampleAdapter.Put emptyMap "test-key" testData).trace
      = [.encode testData, .driverPut "test-key" (base64.Encode testData)] :=
  ⟨by decide,
    (sql.Cache.Put_text_safe exampleAdapter ⟨.MySQL, memBackend⟩ emptyMap "test-key" testData
      rfl).1⟩

/-- Witness for C20: the same run on an empty and on a filled precache. -/
theorem Cache.precaching_off_observational_witness :
    (Cache.run exampleE ⟨some memBackend, some exampleKey, false, emptyMap⟩ emptyMap
      exampleOps).2 =
    (Cache.run exampleE ⟨some memBackend, some exampleKey, false, examplePrecache⟩ emptyMap
      exampleOps).2 :=
  (Cache.precaching_off_observational exampleE
    ⟨some memBackend, some exampleKey, false, emptyMap⟩
    ⟨some memBackend, some exampleKey, false, examplePrecache⟩ memBackend emptyMap exampleOps
    "test-key" rfl rfl rfl rfl rfl).1

/-! ## C13: construction with an unknown backend -/

/-- With `backend` one of "dir", "sql", "redis", construction either fails or returns a
decorator with a backend. -/
theorem NewCacheFactory_known_backend {σ : Type} (env : Env σ) (options : Options)
    (c : Cache σ)
    (hb : options "backend" = some "dir" ∨ options "backend" = some "sql"
      ∨ options "backend" = some "redis")
    (hc : (NewCacheFactory env options).1 = .ok c) : c.backend ≠ none := by
  revert hc
  unfold NewCacheFactory
  rcases hb with h | h | h
  all_goals simp only [h, CacheBackendSQL, CacheBackendDir, CacheBackendRedis]
  all_goals simp only [String.reduceEq, if_false, if_true]
  all_goals split
  all_goals intro hc
  all_goals simp only [Result.ok.injEq, reduceCtorEq] at hc
  all_goals subst hc
  all_goals simp [newDecorator]

/-- C13 (failing input). For the map with the single entry `backend = "memcached"`
construction does not fail: it returns, with a nil error and without any outside call, a
decorator whose backend is nil, and a Get on that decorator panics. -/
theorem NewCacheFactory_unknown_backend {σ : Type} (env : Env σ) (E : Bytes → Bytes → Bytes)
    (s : σ) :
    NewCacheFactory env (oneOption "backend" "memcached")
      = (.ok ⟨none, none, false, fun _ => none⟩, []) ∧
    (Cache.Get E ⟨none, none, false, fun _ => none⟩ s "test-key").ret = .panic nilDeref :=
  ⟨rfl, rfl⟩

/-! ## C14: required options -/

/-- C14. Required options are validated at construction: `NewCacheFactory` returns
`(nil, err)` with a non-nil error, before any call on a directory, a database or a
client, whenever `backend` is absent; `backend` is "dir" and `path` is absent; `backend`
is "sql" and `driver` or `dsn` is absent; or `backend` is "redis" and `addr` is absent or
empty. -/
theorem NewCacheFactory_missing_option {σ : Type} (env : Env σ) (options : Options)
    (h : options "backend" = none ∨
      (options "backend" = some "dir" ∧ options "path" = none) ∨
      (options "backend" = some "sql" ∧
        (options "driver" = none ∨ options "dsn" = none)) ∨
      (options "backend" = some "redis" ∧
        (options "addr" = none ∨ options "addr" = some ""))) :
    (∃ e, (NewCacheFactory env options).1 = .err e) ∧ (NewCacheFactory env options).2 = [] := by
  unfold NewCacheFactory
  rcases h with h | ⟨h, hp⟩ | ⟨h, hp⟩ | ⟨h, hp⟩
  · simp [h]
  · simp [h, CacheBackendSQL, CacheBackendDir, newDirCacheBackend, hp]
  · rcases hp with hp | hp
    · simp [h, CacheBackendSQL, newSQLCacheBackend, hp]
    · cases hd : options "driver" <;> simp [h, CacheBackendSQL, newSQLCacheBackend, hp, hd]
  · rcases hp with hp | hp
    · simp [h, CacheBackendSQL, CacheBackendDir, CacheBackendRedis, newRedisCacheBackend, hp]
    · simp [h, CacheBackendSQL, CacheBackendDir, CacheBackendRedis, newRedisCacheBackend, hp]

/-- Witness for C14: a "redis" backend with an empty address. -/
theorem NewCacheFactory_missing_option_witness :
    (∃ e, (NewCacheFactory exampleEnv
      (fun k => if k = "backend" then some "redis" else if k = "addr" then some "" else none)).1
        = .err e) ∧
    (NewCacheFactory exampleEnv
      (fun k => if k = "backend" then some "redis" else if k = "addr" then some "" else none)).2
        = [] :=
  NewCacheFactory_missing_option exampleEnv
    (fun k => if k = "backend" then some "redis" else if k = "addr" then some "" else none)
    (Or.inr (Or.inr (Or.inr ⟨rfl, Or.inr rfl⟩)))

/-! ## C15: when encryption is enabled -/

/-- The key of a constructed decorator, read off the `encryptionKey` option. -/
theorem NewCacheFactory_key {σ : Type} (env : Env σ) (options : Options) (c : Cache σ)
    (hc : (NewCacheFactory env options).1 = .ok c) :
    c.encryptionKey =
      match options "encryptionKey" with
      | some p => if p ≠ "" then some (deriveKey env p) else none
      | none => none := by
  revert hc
  unfold NewCacheFactory
  cases hb : options "backend" with
  | none => simp
  | some backend =>
    simp only
    repeat' split
    all_goals intro hc
    all_goals simp only [Result.ok.injEq, reduceCtorEq] at hc
    all_goals subst hc
    all_goals simp_all [newDecorator]

/-- C15. Encryption is enabled exactly by a non-empty `encryptionKey`: the decorator
`NewCacheFactory` builds has a nil key iff the option is absent or empty, and then Put
hands the backend the payload unencrypted; otherwise its key is exactly
`pbkdf2.Key(digest[:15], digest[16:32], 1048, 32, sha256.New)` where `digest` is the
SHA-256 digest of the passphrase's bytes: password and salt are the first 15 and the
last 16 bytes of that digest, two slices that do not overlap (byte 15 lies between
them), the iteration count is 1048, and the key has exactly 32 bytes, a length AES
accepts.  Nothing but the passphrase enters the key, so any other construction with the
same passphrase yields the same key.  The digest length of SHA-256 and the output length
of `pbkdf2.Key` are the contracts of the two library functions, taken as hypotheses. -/
theorem NewCacheFactory_encryptionKey {σ : Type} (env : Env σ) (options options1 : Options)
    (c c1 : Cache σ) (E : Bytes → Bytes → Bytes) (s : σ) (rnd : Except Error Bytes)
    (k : String) (v : Bytes)
    (hsha : ∀ x, (env.sha256 x).length = 32)
    (hlen : ∀ pw salt iter n, (env.pbkdf2Key pw salt iter n).length = n)
    (hc : (NewCacheFactory env options).1 = .ok c)
    (hc1 : (NewCacheFactory env options1).1 = .ok c1) :
    (c.encryptionKey = none ↔
      (options "encryptionKey" = none ∨ options "encryptionKey" = some "")) ∧
    (c.encryptionKey = none → ∀ b, c.backend = some b →
      backendPuts (c.Put E s rnd k v).trace = [(k, v)]) ∧
    (∀ p, options "encryptionKey" = some p → p ≠ "" →
      c.encryptionKey =
        some (env.pbkdf2Key ((env.sha256 (stringBytes p)).take 15)
          (((env.sha256 (stringBytes p)).take 32).drop 16) 1048 32) ∧
      (∃ pw b15 salt, env.sha256 (stringBytes p) = pw ++ [b15] ++ salt ∧
        pw.length = 15 ∧ salt.length = 16 ∧
        c.encryptionKey = some (env.pbkdf2Key pw salt 1048 32)) ∧
      (∀ key, c.encryptionKey = some key → key.length = 32 ∧ validKey key)) ∧
    (options1 "encryptionKey" = options "encryptionKey" →
      c1.encryptionKey = c.encryptionKey) := by
  have hkey := NewCacheFactory_key env options c hc
  have hkey1 := NewCacheFactory_key env options1 c1 hc1
  refine ⟨?_, ?_, ?_, ?_⟩
  · rw [hkey]
    cases hp : options "encryptionKey" with
    | none => simp
    | some p => by_cases h : p = "" <;> simp [h]
  · intro hn b hb
    rw [Cache.Put_plain E c s rnd k v hn]
    exact Cache.putBackend_puts c b s k v v [] hb rfl
  · intro p hp hne
    have hk : c.encryptionKey =
        some (env.pbkdf2Key ((env.sha256 (stringBytes p)).take 15)
          (((env.sha256 (stringBytes p)).take 32).drop 16) 1048 32) := by
      rw [hkey, hp]
      simp [hne, deriveKey]
    have hd := hsha (stringBytes p)
    have h1 : (env.sha256 (stringBytes p)).take 32 = env.sha256 (stringBytes p) := by
      rw [← hd]; exact List.take_length _
    refine ⟨hk, ?_, ?_⟩
    · refine ⟨(env.sha256 (stringBytes p)).take 15, (env.sha256 (stringBytes p)).getD 15 0,
        (env.sha256 (stringBytes p)).drop 16, ?_, by simp [hd], by simp [hd], ?_⟩
      · generalize env.sha256 (stringBytes p) = digest at hd
        apply List.ext_getElem
        · simp [hd]
        · intro i hi1 hi2
          by_cases h15 : i < 15
          · simp [List.getElem_append, h15, hd]
          · by_cases h16 : i = 15
            · subst h16
              simp [List.getElem_append, hd, List.getD_eq_getElem?_getD,
                List.getElem?_eq_getElem hi1]
            · have : 16 ≤ i := by omega
              have e : 16 + (i - 15 - 1) = i := by omega
              simp [List.getElem_append, h15, hd, e, h16]
      · rw [hk, h1]
    · intro key hkk
      rw [hk] at hkk
      cases hkk
      have h32 := hlen ((env.sha256 (stringBytes p)).take 15)
        (((env.sha256 (stringBytes p)).take 32).drop 16) 1048 32
      refine ⟨h32, ?_⟩
      unfold validKey
      rw [h32]
      simp
  · intro h
    rw [hkey, hkey1, h]

/-- Witness for C15: the directory configuration of the tests, passphrase "testkey",
over stand-ins for the two library functions (the digest pads the input to 32 bytes, the
derivation concatenates password and salt): the key built is the bytes of "testkey"
followed by zeros, and it is the derivation applied to the first 15 and the last 16
bytes of the passphrase's digest. -/
theorem NewCacheFactory_encryptionKey_witness :
    (∀ x, (exampleEnv.sha256 x).length = 32) ∧
    (∀ pw salt iter n, (exampleEnv.pbkdf2Key pw salt iter n).length = n) ∧
    (NewCacheFactory exampleEnv dirOptions).1
      = .ok ⟨some memBackend,
          some ([116, 101, 115, 116, 107, 101, 121] ++ List.replicate 25 0), true,
          fun _ => none⟩ ∧
    (Cache.mk (some memBackend)
        (some ([116, 101, 115, 116, 107, 101, 121] ++ List.replicate 25 0)) true
        (fun _ => none)).encryptionKey =
      some (exampleEnv.pbkdf2Key ((exampleEnv.sha256 (stringBytes "testkey")).take 15)
        (((exampleEnv.sha256 (stringBytes "testkey")).take 32).drop 16) 1048 32) :=
  have hsha : ∀ x, (exampleEnv.sha256 x).length = 32 := by
    intro x
    simp [exampleEnv]
  have hlen : ∀ pw salt iter n, (exampleEnv.pbkdf2Key pw salt iter n).length = n := by
    intro pw salt iter n
    simp [exampleEnv]
    omega
  have hc : (NewCacheFactory exampleEnv dirOptions).1
      = .ok ⟨some memBackend,
          some ([116, 101, 115, 116, 107, 101, 121] ++ List.replicate 25 0), true,
          fun _ => none⟩ := rfl
  ⟨hsha, hlen, hc,
    ((NewCacheFactory_encryptionKey exampleEnv dirOptions dirOptions
      ⟨some memBackend, some ([116, 101, 115, 116, 107, 101, 121] ++ List.replicate 25 0),
        true, fun _ => none⟩
      ⟨some memBackend, some ([116, 101, 115, 116, 107, 101, 121] ++ List.replicate 25 0),
        true, fun _ => none⟩
      exampleE emptyMap (.ok exampleIV) "test-key" testData hsha hlen hc hc).2.2.1
      "testkey" rfl (by decide)).1⟩

/-! ## C21: per-key frame -/

/-- Every backend call of a Get carries the key of the Get. -/
theorem Cache.Get_backendKey {σ : Type} (E : Bytes → Bytes → Bytes) (c : Cache σ) (s : σ)
    (k : String) :
    ∀ e ∈ (c.Get E s k).trace, ∀ key, e.backendKey = some key → key = k := by
  unfold Cache.Get Cache.getBackend
  repeat' split
  all_goals simp [Event.backendKey]

/-- Every backend call of a Put carries the key of the Put. -/
theorem Cache.Put_backendKey {σ : Type} (E : Bytes → Bytes → Bytes) (c : Cache σ) (s : σ)
    (rnd : Except Error Bytes) (k : String) (v : Bytes) :
    ∀ e ∈ (c.Put E s rnd k v).trace, ∀ key, e.backendKey = some key → key = k := by
  unfold Cache.Put Cache.putBackend
  repeat' split
  all_goals simp [Event.backendKey]

/-- Every backend call of a Delete carries the key of the Delete. -/
theorem Cache.Delete_backendKey {σ : Type} (c : Cache σ) (s : σ) (k : String) :
    ∀ e ∈ (c.Delete s k).trace, ∀ key, e.backendKey = some key → key = k := by
  unfold Cache.Delete
  dsimp only
  repeat' split
  all_goals simp [Event.backendKey]

/-- C21. Per-key frame: for every call `Get(k)`, `Put(k, v)` or `Delete(k)`, whatever its
result, and every other key `k1`, the precache entry of `k1` (present or absent) is the
same after the call as before; every backend call the call makes carries the key `k`;
and the decorator's backend, encryption key and precaching flag are unchanged. -/
theorem Cache.step_per_key_frame {σ : Type} (E : Bytes → Bytes → Bytes) (c : Cache σ) (s : σ)
    (op : Op) (k1 : String) (hne : k1 ≠ op.key) :
    (c.step E s op).1.precache k1 = c.precache k1 ∧
    (∀ e ∈ (c.step E s op).2.2.trace, ∀ key, e.backendKey = some key → key = op.key) ∧
    (c.step E s op).1.backend = c.backend ∧
    (c.step E s op).1.encryptionKey = c.encryptionKey ∧
    (c.step E s op).1.usePrecaching = c.usePrecaching := by
  cases op with
  | Get key =>
    exact ⟨Cache.Get_precache_other E c s key k1 hne, Cache.Get_backendKey E c s key,
      Cache.Get_fields E c s key⟩
  | Put key data rnd =>
    exact ⟨Cache.Put_precache_other E c s rnd key k1 data hne,
      Cache.Put_backendKey E c s rnd key data, Cache.Put_fields E c s rnd key data⟩
  | Delete key =>
    exact ⟨Cache.Delete_precache_other c s key k1 hne, Cache.Delete_backendKey c s key,
      Cache.Delete_fields c s key⟩

/-- Witness for C21: a Put of "other" that the backend rejects, and a Delete of "other",
both with "test-key" in the precache. -/
theorem Cache.step_per_key_frame_witness :
    "test-key" ≠ (Op.Put "other" testData (.ok exampleIV)).key ∧
    (Cache.step exampleE ⟨some failBackend, some exampleKey, true, examplePrecache⟩ ()
      (.Put "other" testData (.ok exampleIV))).2.2.trace
      = [.encrypt testData,
          .backendPut "other" (exampleIV ++ cfbEncrypt exampleE exampleKey exampleIV testData)] ∧
    (Cache.step exampleE ⟨some failBackend, some exampleKey, true, examplePrecache⟩ ()
      (.Put "other" testData (.ok exampleIV))).1.precache "test-key"
      = examplePrecache "test-key" ∧
    (Cache.step exampleE ⟨some failBackend, some exampleKey, true, examplePrecache⟩ ()
      (.Delete "other")).1.precache "test-key" = examplePrecache "test-key" :=
  ⟨by decide, rfl,
    (Cache.step_per_key_frame exampleE
      ⟨some failBackend, some exampleKey, true, examplePrecache⟩ ()
      (.Put "other" testData (.ok exampleIV)) "test-key" (by decide)).1,
    (Cache.step_per_key_frame exampleE
      ⟨some failBackend, some exampleKey, true, examplePrecache⟩ ()
      (.Delete "other") "test-key" (by decide)).1⟩

end cache
